import Mathlib

/-! AWS Analizer front end: upload / polling orchestration.

A shallow embedding of `src/frontend/config.js` and `src/frontend/app.js`.

Conventions of the embedding.

* JavaScript numbers are idealised as rationals (`ℚ`): `0.4` is `2/5`, `0.5` is `1/2`.
  Byte counts, attempt counters and HTTP status codes are naturals.
* A thrown `Error` is the `error` side of `Except String _`; the string is the
  error's `message`.
* What the browser supplies and the source does not define (Unicode lower-casing,
  number formatting, the text of a built-in `TypeError`) is a field of `Engine`.
* What the network answers is a field of `World`. Every request is assumed to
  settle. The callback of the polling interval is not awaited: the answer to a
  status query arrives after `statusDelay` further ticks have fired.
* `app.js` declares `updateProgress`, `showError`, `generateFileId` and
  `resetApplication` twice; function declarations are hoisted, so the later
  declaration is the one that runs.
-/

namespace AwsAnalizer

/-! ## Engine primitives -/

/-- Primitives of the JavaScript engine that `app.js` uses but does not define. -/
structure Engine where
  /-- Rendering of `String.prototype.toLowerCase`. -/
  toLowerCase : String → String
  /-- Rendering of a number inside a template literal or by `String(n)`. -/
  numberToString : ℚ → String
  /-- Message of the `TypeError` raised when property `p` of `null` or
  `undefined` is read. -/
  typeErrorMessage : String → String

/-- A reference engine: ASCII lower-casing, integers printed in decimal. -/
def refEngine : Engine where
  toLowerCase := fun s => String.mk (s.data.map Char.toLower)
  numberToString := fun q => toString q.num ++ (if q.den = 1 then "" else "/" ++ toString q.den)
  typeErrorMessage := fun p => "Cannot read properties of null (reading '" ++ p ++ "')"

/-! ## Configuration (`config.js`) -/

/-- The record `CONFIG.ENDPOINTS`. -/
structure Endpoints where
  GET_UPLOAD_URL : String
  GET_RESULT : String

/-- The record `CONFIG.POLLING`. -/
structure Polling where
  INTERVAL : Nat
  MAX_ATTEMPTS : Nat
  TIMEOUT : Nat

/-- The record `CONFIG.FILE_VALIDATION`. -/
structure FileValidation where
  MAX_SIZE : Nat
  ALLOWED_TYPES : List String
  ALLOWED_EXTENSIONS : List String

/-- The object `CONFIG`. -/
structure Config where
  API_BASE_URL : String
  ENDPOINTS : Endpoints
  POLLING : Polling
  FILE_VALIDATION : FileValidation

/-- The shipped configuration, `const CONFIG = ...` of `config.js`. -/
def CONFIG : Config where
  API_BASE_URL := "https://YOUR_API_GATEWAY_ID.execute-api.YOUR_REGION.amazonaws.com/YOUR_STAGE"
  ENDPOINTS := { GET_UPLOAD_URL := "/upload-url", GET_RESULT := "/results" }
  POLLING := { INTERVAL := 3000, MAX_ATTEMPTS := 40, TIMEOUT := 120000 }
  FILE_VALIDATION :=
    { MAX_SIZE := 10 * 1024 * 1024
      ALLOWED_TYPES := ["application/pdf", "text/plain", "image/png", "image/jpeg", "image/jpg"]
      ALLOWED_EXTENSIONS := [".pdf", ".txt", ".png", ".jpg", ".jpeg"] }

/-! ## Files and validation (`validateFile`) -/

/-- The fields of a browser `File` that the flow reads. -/
structure File where
  name : String
  size : Nat
  type : String

/-- Characters of `s.split('.')`: the segments between dots, at least one. -/
def splitDotChars : List Char → List (List Char)
  | [] => [[]]
  | c :: cs =>
    if c = '.' then [] :: splitDotChars cs
    else
      match splitDotChars cs with
      | [] => [[c]]
      | seg :: rest => (c :: seg) :: rest

/-- The call `s.split('.')`. -/
def split (s : String) : List String :=
  (splitDotChars s.data).map String.mk

/-- The call `xs.pop()`, as far as its value goes: the last element, `undefined`
(here `none`) for an empty array. -/
def pop (xs : List String) : Option String :=
  xs.getLast?

/-- The text after the last dot of a name, the whole name when it has no dot. -/
def lastDotSegment (name : String) : String :=
  String.mk (name.data.reverse.takeWhile (fun c => c != '.')).reverse

/-- Message thrown by the size check of `validateFile`. -/
def sizeReason (eng : Engine) (cfg : Config) : String :=
  "El archivo excede el tamaño máximo de "
    ++ eng.numberToString ((cfg.FILE_VALIDATION.MAX_SIZE : ℚ) / 1024 / 1024) ++ " MB"

/-- Message thrown by the MIME type check of `validateFile`. -/
def typeReason : String :=
  "Tipo de archivo no permitido. Use PDF, TXT, PNG o JPG"

/-- Message thrown by the extension check of `validateFile`. -/
def extensionReason : String :=
  "Extensión de archivo no válida"

/-- The function `validateFile(file)`. -/
def validateFile (eng : Engine) (cfg : Config) (file : File) : Except String Bool :=
  if file.size > cfg.FILE_VALIDATION.MAX_SIZE then
    .error (sizeReason eng cfg)
  else if !(cfg.FILE_VALIDATION.ALLOWED_TYPES.contains file.type) then
    .error typeReason
  else
    match pop (split file.name) with
    | none => .error (eng.typeErrorMessage "toLowerCase")
    | some last =>
      let extension := "." ++ eng.toLowerCase last
      if !(cfg.FILE_VALIDATION.ALLOWED_EXTENSIONS.contains extension) then
        .error extensionReason
      else
        .ok true

/-! ## Values read from the network -/

/-- A value produced by `JSON.parse`. An object lists its own properties,
each key once. -/
inductive Json where
  | null
  | bool (b : Bool)
  | num (q : ℚ)
  | str (s : String)
  | arr (items : List Json)
  | obj (props : List (String × Json))

/-- A JavaScript value read out of a parsed body: `none` is `undefined`. -/
abbrev JsValue := Option Json

/-- The read `v.p` of a property `p` that no built-in prototype defines (here
`message` and `uploadUrl`): a `TypeError` on `null`, the own property of an
object, `undefined` on every other value. -/
def Json.getProp (eng : Engine) (v : Json) (p : String) : Except String JsValue :=
  match v with
  | .null => .error (eng.typeErrorMessage p)
  | .obj props => .ok (props.lookup p)
  | _ => .ok none

/-- The truthiness of a value, as `||` tests it. -/
def toBoolean : JsValue → Bool
  | none => false
  | some .null => false
  | some (.bool b) => b
  | some (.num q) => q != 0
  | some (.str s) => s != ""
  | some (.arr _) => true
  | some (.obj _) => true

mutual
/-- The conversion `String(v)`, which `new Error(v)` applies to its argument. -/
def Json.toJsString (eng : Engine) : Json → String
  | .null => "null"
  | .bool b => if b then "true" else "false"
  | .num q => eng.numberToString q
  | .str s => s
  | .arr items => Json.joinItems eng items
  | .obj _ => "[object Object]"
/-- The call `items.join(',')`: a `null` item contributes the empty string. -/
def Json.joinItems (eng : Engine) : List Json → String
  | [] => ""
  | [.null] => ""
  | [x] => Json.toJsString eng x
  | .null :: xs => "," ++ Json.joinItems eng xs
  | x :: xs => Json.toJsString eng x ++ "," ++ Json.joinItems eng xs
end

/-- The expression `new Error(v || fallback).message`. -/
def errorMessageOr (eng : Engine) (v : JsValue) (fallback : String) : String :=
  match v with
  | some j => if toBoolean (some j) then j.toJsString eng else fallback
  | none => fallback

/-- A settled `fetch` response: its status and what `response.json()` gives,
the parsed body or the message of its rejection. -/
structure Response where
  status : Nat
  json : Except String Json

/-- The flag `response.ok`: a status in the range 200..299. -/
def Response.ok (response : Response) : Bool :=
  200 ≤ response.status && response.status ≤ 299

/-- The expression `await response.json().catch(...)`, whose handler yields an
object without properties. -/
def Response.jsonOrEmpty (response : Response) : Json :=
  match response.json with
  | .ok data => data
  | .error _ => .obj []

/-- A `progress` event of `xhr.upload`. -/
structure ProgressEvent where
  lengthComputable : Bool
  loaded : Nat
  total : Nat

/-- The event that ends an `XMLHttpRequest`. -/
inductive XhrEnd where
  | load (status : Nat)
  | error
  | abort

/-- What the environment answers during one run of `processFile`. A `fetch`
that rejects is the `error` side, with the message of the rejection. -/
structure World where
  /-- Value returned by `generateFileId()`. -/
  generatedFileId : String
  /-- Answer to `POST /upload-url`. -/
  uploadUrlResponse : Except String Response
  /-- The `progress` events of the `PUT`, in order. -/
  uploadProgress : List ProgressEvent
  /-- The event that ends the `PUT`. -/
  uploadEnd : XhrEnd
  /-- Answer to the status query issued when `pollingAttempts` is `n`. -/
  statusResponse : Nat → Except String Response
  /-- Number of further ticks that fire before the answer to the status query
  issued when `pollingAttempts` is `n` arrives: 0 when it arrives before the
  next tick. -/
  statusDelay : Nat → Nat
  /-- Answer to the final `GET /results/<fileId>`. -/
  resultResponse : Except String Response

/-! ## Session state and observable events -/

/-- The object `AppState` (`abortController` is never assigned and is left out). -/
structure AppState where
  currentFile : Option File
  fileId : Option String
  uploadProgress : Nat
  pollingAttempts : Nat
  currentStep : Nat

/-- The initial value of `AppState`. -/
def AppState.initial : AppState where
  currentFile := none
  fileId := none
  uploadProgress := 0
  pollingAttempts := 0
  currentStep := 0

/-- What a run does that can be observed from outside: calls of the UI sinks,
calls of the four network functions, and timer bookkeeping. The status text
passed to `updateProgress` and console logging are not traced. -/
inductive Event where
  | showSection (name : String)
  | resetSteps
  | completeStep (stepNumber : Nat)
  | updateProgress (percentage : ℚ) (title : String)
  | getPresignedUrl (fileId : Option String) (fileName contentType : String)
  | uploadToS3 (presignedUrl : JsValue) (contentType : String)
  | checkProcessingStatus (fileId : Option String)
  | getResult (fileId : Option String)
  | clearInterval
  | showError (message : String)
  | displayResultsScheduled (result : Json)

/-- Whether the event is a call of one of the four network functions. -/
def Event.isNetworkCall : Event → Bool
  | .getPresignedUrl _ _ _ => true
  | .uploadToS3 _ _ => true
  | .checkProcessingStatus _ => true
  | .getResult _ => true
  | _ => false

/-- The percent of an `updateProgress` call. -/
def Event.percent? : Event → Option ℚ
  | .updateProgress percentage _ => some percentage
  | _ => none

/-- The percent values passed to `updateProgress`, in order. -/
def progressValues (events : List Event) : List ℚ :=
  events.filterMap Event.percent?

/-- The number of status queries issued. -/
def statusQueries (events : List Event) : Nat :=
  events.countP (fun e => match e with | .checkProcessingStatus _ => true | _ => false)

/-! ## API calls -/

/-- Default reason of `getPresignedUrl`. -/
def uploadUrlDefaultReason : String :=
  "Error al obtener URL de upload"

/-- The function `getPresignedUrl(file)`, given the answer of the endpoint. -/
def getPresignedUrl (eng : Engine) (state : AppState) (file : File)
    (fetched : Except String Response) : List Event × Except String JsValue :=
  ([Event.getPresignedUrl state.fileId file.name file.type],
    match fetched with
    | .error m => .error m
    | .ok response =>
      if !response.ok then
        match response.jsonOrEmpty.getProp eng "message" with
        | .error m => .error m
        | .ok message => .error (errorMessageOr eng message uploadUrlDefaultReason)
      else
        match response.json with
        | .error m => .error m
        | .ok data => data.getProp eng "uploadUrl")

/-- The `progress` listener of `uploadToS3`: the percent it passes to
`updateProgress`, `none` when the event is not length-computable. For
`total = 0` JavaScript yields `NaN` or `Infinity` where the rationals yield a
number; the properties below concern `total > 0`. -/
def uploadProgressValue (event : ProgressEvent) : Option ℚ :=
  if event.lengthComputable then
    let percentComplete : ℚ := ((event.loaded : ℚ) / (event.total : ℚ)) * 100
    let progressValue : ℚ := 20 + (percentComplete * (2 / 5))
    some progressValue
  else
    none

/-- The function `uploadToS3(presignedUrl, file)`, given the events of the
transfer. -/
def uploadToS3 (presignedUrl : JsValue) (file : File) (progress : List ProgressEvent)
    (completion : XhrEnd) : List Event × Except String Unit :=
  (Event.uploadToS3 presignedUrl file.type ::
      progress.filterMap (fun event =>
        (uploadProgressValue event).map (fun v => Event.updateProgress v "Transfiriendo archivo")),
    match completion with
    | .load status =>
      if status = 200 then .ok () else .error "Error al subir archivo a S3"
    | .error => .error "Error de red al subir archivo"
    | .abort => .error "Upload cancelado")

/-- Reason of the rejection when the polling budget is used up. -/
def timeoutReason : String :=
  "Timeout: El procesamiento está tardando más de lo esperado. Intente con un archivo más pequeño."

/-- The function `checkProcessingStatus()`, given the answer of the endpoint. -/
def checkProcessingStatus (fetched : Except String Response) : Except String Bool :=
  match fetched with
  | .error m => .error m
  | .ok response =>
    if response.status = 404 then .ok false
    else if !response.ok then .error "Error al verificar estado de procesamiento"
    else .ok true

/-- The percent that a polling tick reports when the counter reads `attempts`. -/
def pollingProgressValue (pollingAttempts : Nat) : ℚ :=
  60 + ((pollingAttempts : ℚ) * (1 / 2))

/-- The effect of one timer tick. -/
structure Tick where
  events : List Event
  /-- Value of `AppState.pollingAttempts` after the tick. -/
  pollingAttempts : Nat
  /-- How the promise was settled by this tick, `none` when the timer stays live. -/
  settled : Option (Except String Unit)

/-- One run of the `setInterval` callback of `waitForProcessing`, entered with
`AppState.pollingAttempts = attempts`, when the answer to its status query
arrives before anything else happens. -/
def pollTick (cfg : Config) (fileId : Option String)
    (statusResponse : Nat → Except String Response) (attempts : Nat) : Tick :=
  let pollingAttempts := attempts + 1
  let progress := Event.updateProgress (pollingProgressValue pollingAttempts) "Analizando contenido"
  if pollingAttempts > cfg.POLLING.MAX_ATTEMPTS then
    ⟨[progress, .clearInterval], pollingAttempts, some (.error timeoutReason)⟩
  else
    match checkProcessingStatus (statusResponse pollingAttempts) with
    | .ok true =>
      ⟨[progress, .checkProcessingStatus fileId, .clearInterval], pollingAttempts, some (.ok ())⟩
    | .ok false => ⟨[progress, .checkProcessingStatus fileId], pollingAttempts, none⟩
    | .error _ => ⟨[progress, .checkProcessingStatus fileId], pollingAttempts, none⟩

/-- The result of a polling phase. -/
structure Poll where
  events : List Event
  /-- Value of `AppState.pollingAttempts` when the promise settles. -/
  pollingAttempts : Nat
  outcome : Except String Unit

/-- The `setInterval` callback of `waitForProcessing` up to its `await`,
entered with `AppState.pollingAttempts = attempts`: the counter, the progress
report, the budget test and, within the budget, the status query. -/
def tickFires (cfg : Config) (fileId : Option String) (attempts : Nat) : Tick :=
  let pollingAttempts := attempts + 1
  let progress := Event.updateProgress (pollingProgressValue pollingAttempts) "Analizando contenido"
  if pollingAttempts > cfg.POLLING.MAX_ATTEMPTS then
    ⟨[progress, .clearInterval], pollingAttempts, some (.error timeoutReason)⟩
  else
    ⟨[progress, .checkProcessingStatus fileId], pollingAttempts, none⟩

/-- The callbacks resumed by the answers that arrive between two ticks, in the
order of their queries: a success answer clears the interval and resolves the
promise, any other answer changes nothing. What further answers do once the
promise is settled, a `clearInterval` and a `resolve` without effect, is not
traced. -/
def answersArrive : List (Except String Response) → List Event × Option (Except String Unit)
  | [] => ([], none)
  | fetched :: later =>
    match checkProcessingStatus fetched with
    | .ok true => ([Event.clearInterval], some (.ok ()))
    | .ok false => answersArrive later
    | .error _ => answersArrive later

/-- The answers that arrive after tick `tick` and before the next one: those of
the queries issued at a tick `issued` with `issued + statusDelay issued = tick`. -/
def arrivals (statusResponse : Nat → Except String Response) (statusDelay : Nat → Nat)
    (tick : Nat) : List (Except String Response) :=
  ((List.range' 1 tick).filter (fun issued => issued + statusDelay issued = tick)).map
    statusResponse

/-- The timer of `waitForProcessing`: a tick fires, then the answers due before
the next tick arrive, and so on until the interval is cleared, by a tick that
finds the budget used up or by a success answer. -/
def pollLoop (cfg : Config) (fileId : Option String)
    (statusResponse : Nat → Except String Response) (statusDelay : Nat → Nat)
    (attempts : Nat) : Poll :=
  match h : (tickFires cfg fileId attempts).settled with
  | some outcome =>
    ⟨(tickFires cfg fileId attempts).events, (tickFires cfg fileId attempts).pollingAttempts,
      outcome⟩
  | none =>
    let answered := answersArrive
      (arrivals statusResponse statusDelay (tickFires cfg fileId attempts).pollingAttempts)
    match answered.2 with
    | some outcome =>
      ⟨(tickFires cfg fileId attempts).events ++ answered.1,
        (tickFires cfg fileId attempts).pollingAttempts, outcome⟩
    | none =>
      let rest := pollLoop cfg fileId statusResponse statusDelay
        (tickFires cfg fileId attempts).pollingAttempts
      ⟨(tickFires cfg fileId attempts).events ++ answered.1 ++ rest.events,
        rest.pollingAttempts, rest.outcome⟩
termination_by cfg.POLLING.MAX_ATTEMPTS + 1 - attempts
decreasing_by
  by_cases hmax : attempts + 1 > cfg.POLLING.MAX_ATTEMPTS
  · simp [tickFires, hmax] at h
  · have hnext : (tickFires cfg fileId attempts).pollingAttempts = attempts + 1 := by
      simp only [tickFires, if_neg hmax]
    omega

/-- The function `waitForProcessing()`: the counter is reset, then the timer runs. -/
def waitForProcessing (cfg : Config) (fileId : Option String)
    (statusResponse : Nat → Except String Response) (statusDelay : Nat → Nat) : Poll :=
  pollLoop cfg fileId statusResponse statusDelay 0

/-- Default reason of `getResult`. -/
def resultDefaultReason : String :=
  "Error al obtener resultados"

/-- The function `getResult()`, given the answer of the endpoint. -/
def getResult (eng : Engine) (state : AppState)
    (fetched : Except String Response) : List Event × Except String Json :=
  ([Event.getResult state.fileId],
    match fetched with
    | .error m => .error m
    | .ok response =>
      if !response.ok then
        match response.jsonOrEmpty.getProp eng "message" with
        | .error m => .error m
        | .ok message => .error (errorMessageOr eng message resultDefaultReason)
      else
        response.json)

/-! ## Main processing flow (`processFile`) -/

/-- How a run of `processFile` ends. -/
inductive Outcome where
  /-- The `try` block ran to its end; `displayResults(result)` is scheduled. -/
  | completed (result : Json)
  /-- The `catch` block ran; `message` was passed to `showError`. -/
  | failed (message : String)

/-- A finished run of `processFile`. -/
structure Run where
  state : AppState
  events : List Event
  outcome : Outcome

/-- The `catch` block of `processFile`. -/
def catchError (state : AppState) (events : List Event) (message : String) : Run :=
  let shown := if message = "" then "Error desconocido al procesar el archivo" else message
  ⟨state, events ++ [Event.showError shown], Outcome.failed shown⟩

/-- The function `processFile(file)`, run from `state` against `world`. -/
def processFile (eng : Engine) (cfg : Config) (world : World) (state : AppState)
    (file : File) : Run :=
  match validateFile eng cfg file with
  | .error m => catchError state [] m
  | .ok _ =>
    let state := { state with currentFile := some file, fileId := some world.generatedFileId }
    let state := { state with currentStep := 0 }
    let events := [Event.showSection "progress", Event.resetSteps,
      Event.updateProgress 10 "Solicitando autorización"]
    let authorization := getPresignedUrl eng state file world.uploadUrlResponse
    let events := events ++ authorization.1
    match authorization.2 with
    | .error m => catchError state events m
    | .ok uploadUrl =>
      let events := events ++
        [Event.completeStep 1, Event.updateProgress 20 "Transfiriendo archivo"]
      let transfer := uploadToS3 uploadUrl file world.uploadProgress world.uploadEnd
      let events := events ++ transfer.1
      match transfer.2 with
      | .error m => catchError state events m
      | .ok _ =>
        let events := events ++
          [Event.completeStep 2, Event.updateProgress 60 "Analizando contenido"]
        let polling := waitForProcessing cfg state.fileId world.statusResponse world.statusDelay
        let state := { state with pollingAttempts := polling.pollingAttempts }
        let events := events ++ polling.events
        match polling.outcome with
        | .error m => catchError state events m
        | .ok _ =>
          let events := events ++
            [Event.completeStep 3, Event.updateProgress 90 "Obteniendo resultados"]
          let fetched := getResult eng state world.resultResponse
          let events := events ++ fetched.1
          match fetched.2 with
          | .error m => catchError state events m
          | .ok result =>
            ⟨state,
              events ++ [Event.completeStep 4, Event.updateProgress 100 "Análisis completado",
                Event.displayResultsScheduled result],
              Outcome.completed result⟩

/-! ## Reference behaviour of the polling loop -/

/-- A status query was answered with a success (2xx) status. -/
def isSuccessStatus (fetched : Except String Response) : Bool :=
  match fetched with
  | .ok response => 200 ≤ response.status && response.status ≤ 299
  | .error _ => false

/-- Whether a success answer arrives after tick `tick` and before the next one. -/
def readyArrives (statusResponse : Nat → Except String Response) (statusDelay : Nat → Nat)
    (tick : Nat) : Bool :=
  (arrivals statusResponse statusDelay tick).any isSuccessStatus

/-- The events of a tick that reads the counter as `i` and issues its query. -/
def queryingTick (fileId : Option String) (i : Nat) : List Event :=
  [Event.updateProgress (pollingProgressValue i) "Analizando contenido",
    Event.checkProcessingStatus fileId]

/-- Reference polling loop, after the specification: tick `i` sets the counter
to `i`; the loop resolves at the first tick `i ≤ maxAttempts` whose answer is a
success status, every other answer costing one attempt; with no such tick,
tick `maxAttempts + 1` rejects with the timeout reason without a query. -/
def pollReference (maxAttempts : Nat) (fileId : Option String)
    (statusResponse : Nat → Except String Response) : Poll :=
  match (List.range' 1 maxAttempts).find? (fun i => isSuccessStatus (statusResponse i)) with
  | some k =>
    ⟨(List.range' 1 k).flatMap (queryingTick fileId) ++ [Event.clearInterval], k, .ok ()⟩
  | none =>
    ⟨(List.range' 1 maxAttempts).flatMap (queryingTick fileId) ++
        [Event.updateProgress (pollingProgressValue (maxAttempts + 1)) "Analizando contenido",
          Event.clearInterval],
      maxAttempts + 1, .error timeoutReason⟩


/-! ## A sample run -/

/-- A 5 MB PDF. -/
def samplePdf : File :=
  ⟨"report.pdf", 5 * 1024 * 1024, "application/pdf"⟩

/-- A 15 MB PDF, above the shipped size limit. -/
def oversizePdf : File :=
  ⟨"report.pdf", 15 * 1024 * 1024, "application/pdf"⟩

/-- A world in which every phase succeeds: the handle is granted, the transfer
reports three progress events and loads with 200, the result is ready at the
third status query. -/
def sampleWorld : World where
  generatedFileId := "0b9d6c1e-5a3f-4c7d-9e21-7f4a1c2b3d4e"
  uploadUrlResponse :=
    .ok ⟨200, .ok (.obj [("uploadUrl", .str "https://bucket.s3.amazonaws.com/key?X-Amz-Signature=ab")])⟩
  uploadProgress :=
    [⟨true, 0, 5242880⟩, ⟨true, 2621440, 5242880⟩, ⟨true, 5242880, 5242880⟩]
  uploadEnd := .load 200
  statusResponse := fun n =>
    if n < 3 then .ok ⟨404, .error "Unexpected end of JSON input"⟩
    else .ok ⟨200, .ok (.obj [("summary", .str "Informe trimestral"), ("metadata", .obj [])])⟩
  statusDelay := fun _ => 0
  resultResponse :=
    .ok ⟨200, .ok (.obj [("summary", .str "Informe trimestral"), ("metadata", .obj [])])⟩


/-- A status endpoint that answers every query with 404 and an empty body. -/
def neverReady : Nat → Except String Response :=
  fun _ => .ok ⟨404, .error "Unexpected end of JSON input"⟩

/-- Every status answer arrives before the next tick. -/
def promptAnswers : Nat → Nat :=
  fun _ => 0

/-- Every status answer arrives after one further tick has fired. -/
def lateAnswers : Nat → Nat :=
  fun _ => 1

/-- A status endpoint that answers every query with 200 and a result. -/
def alwaysReady : Nat → Except String Response :=
  fun _ => .ok ⟨200, .ok (.obj [("summary", .str "Informe trimestral"), ("metadata", .obj [])])⟩

/-- A status endpoint that answers 404 to the first 39 queries and 200 from the
40th on. -/
def readyAtLast : Nat → Except String Response :=
  fun n =>
    if n < 40 then .ok ⟨404, .error "Unexpected end of JSON input"⟩
    else .ok ⟨200, .ok (.obj [("summary", .str "Informe trimestral"), ("metadata", .obj [])])⟩

/-- The shipped configuration with `MAX_ATTEMPTS` lowered from 40 to 1. -/
def maxAttempts1 : Config :=
  { CONFIG with POLLING := { CONFIG.POLLING with MAX_ATTEMPTS := 1 } }

/-- The shipped configuration with `MAX_ATTEMPTS` raised from 40 to 59. -/
def maxAttempts59 : Config :=
  { CONFIG with POLLING := { CONFIG.POLLING with MAX_ATTEMPTS := 59 } }


/-- The sample world, except that `POST /upload-url` answers 500 with a
`message`. -/
def serverErrorWorld : World :=
  { sampleWorld with
    uploadUrlResponse := .ok ⟨500, .ok (.obj [("message", .str "Internal server error")])⟩ }


/-- The sample world, except that `POST /upload-url` answers 200 with a JSON
object without properties, hence without `uploadUrl`. -/
def noHandleWorld : World :=
  { sampleWorld with uploadUrlResponse := .ok ⟨200, .ok (.obj [])⟩ }

/-- The sample world, except that `POST /upload-url` answers 500 with an empty
`message`. -/
def emptyMessageWorld : World :=
  { sampleWorld with uploadUrlResponse := .ok ⟨500, .ok (.obj [("message", .str "")])⟩ }


/-- A status endpoint that answers 404, then 500, then fails at the network
level, and answers 204 from the fourth query on. -/
def flakyThenReady : Nat → Except String Response :=
  fun n =>
    if n = 1 then .ok ⟨404, .error "Unexpected end of JSON input"⟩
    else if n = 2 then .ok ⟨500, .ok (.obj [("message", .str "Internal server error")])⟩
    else if n = 3 then .error "Failed to fetch"
    else .ok ⟨204, .error "Unexpected end of JSON input"⟩


/-- Reason with which `uploadToS3` rejects when the transfer completes with a
status it does not accept. -/
def transferErrorReason : String :=
  "Error al subir archivo a S3"


/-! ## Retry -/

/-- The click listener of `retryBtn`: `processFile(AppState.currentFile)` when a
file is held, nothing otherwise. -/
def retryClick (eng : Engine) (cfg : Config) (world : World) (state : AppState) : Option Run :=
  match state.currentFile with
  | some file => some (processFile eng cfg world state file)
  | none => none


/-! ## The page between events -/

/-- The function `resetApplication()` (the later declaration): the new
session state and the section shown. Clearing the file input and the width of
the progress bar are not traced. -/
def resetApplication (state : AppState) : AppState × List Event :=
  ({ state with currentFile := none, fileId := none, uploadProgress := 0, pollingAttempts := 0 },
    [Event.showSection "upload"])

/-- The page while a polling phase is in flight: the session state, and
whether the interval that `waitForProcessing` created is still scheduled. The
handle of that interval is a local constant of `waitForProcessing`; only the
callback of the interval itself refers to it. -/
structure Page where
  state : AppState
  pollInterval : Bool

/-- A click on `newAnalysisBtn` or `cancelErrorBtn`: `resetApplication()` runs. -/
def Page.resetClicked (page : Page) : Page × List Event :=
  ({ page with state := (resetApplication page.state).1 }, (resetApplication page.state).2)

/-- A new `processFile(file)` starts: its statements up to the first `await`,
that is validation, the session fields, the progress section, the first
progress report and the authorization request. -/
def Page.processFileStarts (eng : Engine) (cfg : Config) (world : World) (file : File)
    (page : Page) : Page × List Event :=
  match validateFile eng cfg file with
  | .error m => ({ page with state := (catchError page.state [] m).state },
      (catchError page.state [] m).events)
  | .ok _ =>
    let state := { page.state with currentFile := some file, fileId := some world.generatedFileId }
    let state := { state with currentStep := 0 }
    ({ page with state := state },
      [Event.showSection "progress", Event.resetSteps,
        Event.updateProgress 10 "Solicitando autorización",
        Event.getPresignedUrl state.fileId file.name file.type])

/-- The interval fires: when it is still scheduled, its callback runs once on
the session state as it is now, with the answer to its query arriving before
anything else happens. -/
def Page.timerFires (cfg : Config) (statusResponse : Nat → Except String Response)
    (page : Page) : Page × List Event :=
  if page.pollInterval then
    let tick := pollTick cfg page.state.fileId statusResponse page.state.pollingAttempts
    ({ state := { page.state with pollingAttempts := tick.pollingAttempts },
       pollInterval := tick.settled.isNone },
      tick.events)
  else
    (page, [])

/-- The page of the sample run after its second polling tick. -/
def pollingPage : Page where
  state :=
    { currentFile := some samplePdf
      fileId := some "0b9d6c1e-5a3f-4c7d-9e21-7f4a1c2b3d4e"
      uploadProgress := 0
      pollingAttempts := 2
      currentStep := 0 }
  pollInterval := true


/-! ## HTML escaping (`escapeHtml`) -/

/-- The table `map` of `escapeHtml`: the entity of a character that the pattern
of the `replace` call matches, `none` for every other character. -/
def escapeHtmlMap (c : Char) : Option String :=
  if c = '&' then some "&amp;"
  else if c = '<' then some "&lt;"
  else if c = '>' then some "&gt;"
  else if c = '"' then some "&quot;"
  else if c = '\x27' then some "&#039;"
  else none

/-- The call `text.replace(...)` of `escapeHtml`, character by character. The
five characters of the pattern are ASCII, so replacing per character agrees
with the replacement per UTF-16 code unit that the engine performs. -/
def escapeHtmlChars : List Char → List Char
  | [] => []
  | c :: cs =>
    (match escapeHtmlMap c with
      | some entity => entity.data
      | none => [c]) ++ escapeHtmlChars cs

/-- The function `escapeHtml(text)`. -/
def escapeHtml (text : String) : String :=
  String.mk (escapeHtmlChars text.data)

/-- The five entities with the character each stands for. -/
def htmlEntities : List (List Char × Char) :=
  [(['&', 'a', 'm', 'p', ';'], '&'),
    (['&', 'l', 't', ';'], '<'),
    (['&', 'g', 't', ';'], '>'),
    (['&', 'q', 'u', 'o', 't', ';'], '"'),
    (['&', '#', '0', '3', '9', ';'], '\x27')]

/-- The entity that the text starts with, if any. -/
def entityAt (text : List Char) : Option (List Char × Char) :=
  htmlEntities.find? (fun entry => entry.1.isPrefixOf text)

/-- Replacement of each entity by its character, left to right; `skip` counts
the characters of the current entity still to be passed over. -/
def unescapeFrom : Nat → List Char → List Char
  | _, [] => []
  | skip + 1, _ :: rest => unescapeFrom skip rest
  | 0, c :: rest =>
    match entityAt (c :: rest) with
    | some entry => entry.2 :: unescapeFrom (entry.1.length - 1) rest
    | none => c :: unescapeFrom 0 rest

/-- Replacement of each of the five entities by its character. -/
def unescapeHtml (text : String) : String :=
  String.mk (unescapeFrom 0 text.data)


/-! ## Validation: properties -/

theorem splitDotChars_ne_nil (cs : List Char) : splitDotChars cs ≠ [] := by
  cases cs with
  | nil => simp [splitDotChars]
  | cons c cs =>
    unfold splitDotChars
    split
    · simp
    · split <;> simp

theorem splitDotChars_of_no_dot (cs : List Char) (h : ∀ x ∈ cs, x ≠ '.') :
    splitDotChars cs = [cs] := by
  induction cs with
  | nil => rfl
  | cons c cs ih =>
    have hc : c ≠ '.' := h c (List.mem_cons_self _ _)
    have ih2 := ih (fun x hx => h x (List.mem_cons_of_mem _ hx))
    simp [splitDotChars, hc, ih2]

theorem splitDotChars_cons_dot (cs : List Char) :
    splitDotChars ('.' :: cs) = [] :: splitDotChars cs := by
  simp [splitDotChars]

theorem splitDotChars_cons_ne (c : Char) (cs : List Char) (hc : c ≠ '.') :
    ∃ seg rest, splitDotChars cs = seg :: rest ∧
      splitDotChars (c :: cs) = (c :: seg) :: rest := by
  cases hs : splitDotChars cs with
  | nil => exact absurd hs (splitDotChars_ne_nil cs)
  | cons seg rest =>
    refine ⟨seg, rest, rfl, ?_⟩
    rw [splitDotChars, if_neg hc, hs]

theorem length_splitDotChars (cs : List Char) :
    (splitDotChars cs).length = cs.count '.' + 1 := by
  induction cs with
  | nil => rfl
  | cons c cs ih =>
    by_cases hc : c = '.'
    · subst hc
      rw [splitDotChars_cons_dot, List.length_cons, ih, List.count_cons_self]
    · obtain ⟨seg, rest, hs, hs2⟩ := splitDotChars_cons_ne c cs hc
      rw [hs2, List.length_cons, ← List.length_cons seg rest, ← hs, ih,
        List.count_cons_of_ne (Ne.symm hc)]

theorem getLast?_cons_of_ne_nil {α : Type} (a : α) (l : List α) (h : l ≠ []) :
    (a :: l).getLast? = l.getLast? := by
  cases l with
  | nil => exact absurd rfl h
  | cons b l => simp [List.getLast?_cons_cons]

theorem takeWhile_snoc_of_all {α : Type} (p : α → Bool) (l : List α) (x : α)
    (h : ∀ a ∈ l, p a = true) : (l ++ [x]).takeWhile p = l ++ [x].takeWhile p := by
  induction l with
  | nil => rfl
  | cons a l ih =>
    have ha : p a = true := h a (List.mem_cons_self _ _)
    rw [List.cons_append, List.takeWhile_cons, ha, if_pos rfl,
      ih (fun b hb => h b (List.mem_cons_of_mem _ hb)), List.cons_append]

theorem takeWhile_append_of_exists {α : Type} (p : α → Bool) (l m : List α)
    (h : ∃ a ∈ l, p a = false) : (l ++ m).takeWhile p = l.takeWhile p := by
  induction l with
  | nil => simp at h
  | cons a l ih =>
    simp only [List.cons_append, List.takeWhile_cons]
    cases hpa : p a with
    | false => simp
    | true =>
      simp only [if_true]
      obtain ⟨b, hb, hpb⟩ := h
      rcases List.mem_cons.mp hb with rfl | hb2
      · rw [hpa] at hpb; cases hpb
      · rw [ih ⟨b, hb2, hpb⟩]

theorem getLast?_splitDotChars (cs : List Char) :
    (splitDotChars cs).getLast? = some (cs.reverse.takeWhile (fun c => c != '.')).reverse := by
  induction cs with
  | nil => rfl
  | cons c cs ih =>
    by_cases hdot : ∃ a ∈ cs, a = '.'
    · -- a later dot: the last segment is that of the tail
      have hr : (c :: cs).reverse.takeWhile (fun c => c != '.')
          = cs.reverse.takeWhile (fun c => c != '.') := by
        rw [List.reverse_cons]
        apply takeWhile_append_of_exists
        obtain ⟨a, ha, rfl⟩ := hdot
        exact ⟨'.', List.mem_reverse.mpr ha, by simp⟩
      rw [hr, ← ih]
      by_cases hc : c = '.'
      · subst hc
        rw [splitDotChars_cons_dot, getLast?_cons_of_ne_nil _ _ (splitDotChars_ne_nil cs)]
      · obtain ⟨seg, rest, hs, hs2⟩ := splitDotChars_cons_ne c cs hc
        have hrest : rest ≠ [] := by
          intro hnil
          subst hnil
          obtain ⟨a, ha, rfl⟩ := hdot
          have hlen := length_splitDotChars cs
          rw [hs, List.length_singleton] at hlen
          have hpos : 0 < cs.count '.' := List.count_pos_iff.mpr ha
          omega
        rw [hs2, hs, getLast?_cons_of_ne_nil _ _ hrest, getLast?_cons_of_ne_nil _ _ hrest]
    · -- no later dot: the tail is one segment
      have hno : ∀ x ∈ cs, x ≠ '.' := fun x hx hxd => hdot ⟨x, hx, hxd⟩
      have hall : ∀ a ∈ cs.reverse, (fun c => c != '.') a = true := by
        intro a ha
        simpa using hno a (List.mem_reverse.mp ha)
      rw [List.reverse_cons, takeWhile_snoc_of_all _ _ _ hall]
      by_cases hc : c = '.'
      · subst hc
        rw [splitDotChars_cons_dot, splitDotChars_of_no_dot cs hno]
        simp
      · obtain ⟨seg, rest, hs, hs2⟩ := splitDotChars_cons_ne c cs hc
        rw [splitDotChars_of_no_dot cs hno] at hs
        simp only [List.cons.injEq] at hs
        obtain ⟨rfl, rfl⟩ := hs
        rw [hs2]
        simp [hc]

theorem pop_split (name : String) : pop (split name) = some (lastDotSegment name) := by
  unfold pop split lastDotSegment
  rw [List.getLast?_map, getLast?_splitDotChars]
  rfl

theorem sizeReason_ne_typeReason (eng : Engine) (cfg : Config) :
    sizeReason eng cfg ≠ typeReason := by
  intro h
  have hd := congrArg String.data h
  simp [sizeReason, typeReason, String.data_append] at hd

theorem sizeReason_ne_extensionReason (eng : Engine) (cfg : Config) :
    sizeReason eng cfg ≠ extensionReason := by
  intro h
  have hd := congrArg String.data h
  simp [sizeReason, extensionReason, String.data_append] at hd

theorem typeReason_ne_extensionReason : typeReason ≠ extensionReason := by
  decide

/-- C1: `validateFile` returns `true` exactly when the size is at most
`MAX_SIZE`, the declared type is in `ALLOWED_TYPES` and `'.'` followed by the
lower-cased text after the last dot of the name is in `ALLOWED_EXTENSIONS`;
in every other case it throws. -/
theorem validateFile_accepts_iff (eng : Engine) (cfg : Config) (file : File) :
    (validateFile eng cfg file = .ok true ↔
      (file.size ≤ cfg.FILE_VALIDATION.MAX_SIZE ∧
        file.type ∈ cfg.FILE_VALIDATION.ALLOWED_TYPES ∧
        ("." ++ eng.toLowerCase (lastDotSegment file.name))
          ∈ cfg.FILE_VALIDATION.ALLOWED_EXTENSIONS)) ∧
    (¬ (file.size ≤ cfg.FILE_VALIDATION.MAX_SIZE ∧
        file.type ∈ cfg.FILE_VALIDATION.ALLOWED_TYPES ∧
        ("." ++ eng.toLowerCase (lastDotSegment file.name))
          ∈ cfg.FILE_VALIDATION.ALLOWED_EXTENSIONS) →
      ∃ reason, validateFile eng cfg file = .error reason) := by
  unfold validateFile
  rw [pop_split]
  by_cases hs : file.size > cfg.FILE_VALIDATION.MAX_SIZE
  · simp [hs]
  · by_cases ht : file.type ∈ cfg.FILE_VALIDATION.ALLOWED_TYPES
    · by_cases he : ("." ++ eng.toLowerCase (lastDotSegment file.name))
          ∈ cfg.FILE_VALIDATION.ALLOWED_EXTENSIONS
      · simp [hs, ht, he, Nat.le_of_not_gt hs]
      · simp [hs, ht, he]
    · simp [hs, ht]

theorem validateFile_oversize (eng : Engine) (cfg : Config) (file : File)
    (h : file.size > cfg.FILE_VALIDATION.MAX_SIZE) :
    validateFile eng cfg file = .error (sizeReason eng cfg) := by
  simp [validateFile, h]

/-- C2: `validateFile` fails fast in the order size, type, extension: an
oversize file gets the size reason whatever its type and name; a file within
the size limit whose type is not allowed gets the type reason whatever its
name; the extension reason is produced exactly when the size and type checks
pass and the extension check fails; the three reasons are pairwise distinct. -/
theorem validateFile_fail_fast (eng : Engine) (cfg : Config) :
    (∀ file : File, file.size > cfg.FILE_VALIDATION.MAX_SIZE →
      validateFile eng cfg file = .error (sizeReason eng cfg)) ∧
    (∀ file : File, file.size ≤ cfg.FILE_VALIDATION.MAX_SIZE →
      file.type ∉ cfg.FILE_VALIDATION.ALLOWED_TYPES →
      validateFile eng cfg file = .error typeReason) ∧
    (∀ file : File, validateFile eng cfg file = .error extensionReason ↔
      (file.size ≤ cfg.FILE_VALIDATION.MAX_SIZE ∧
        file.type ∈ cfg.FILE_VALIDATION.ALLOWED_TYPES ∧
        ("." ++ eng.toLowerCase (lastDotSegment file.name))
          ∉ cfg.FILE_VALIDATION.ALLOWED_EXTENSIONS)) ∧
    sizeReason eng cfg ≠ typeReason ∧
    sizeReason eng cfg ≠ extensionReason ∧
    typeReason ≠ extensionReason := by
  refine ⟨?_, ?_, ?_, sizeReason_ne_typeReason eng cfg,
    sizeReason_ne_extensionReason eng cfg, typeReason_ne_extensionReason⟩
  · intro file hs
    exact validateFile_oversize eng cfg file hs
  · intro file hs ht
    simp [validateFile, Nat.not_lt.mpr hs, ht]
  · intro file
    unfold validateFile
    rw [pop_split]
    by_cases hs : file.size > cfg.FILE_VALIDATION.MAX_SIZE
    · simp [hs, sizeReason_ne_extensionReason eng cfg]
    · by_cases ht : file.type ∈ cfg.FILE_VALIDATION.ALLOWED_TYPES
      · by_cases he : ("." ++ eng.toLowerCase (lastDotSegment file.name))
            ∈ cfg.FILE_VALIDATION.ALLOWED_EXTENSIONS
        · simp [hs, ht, he]
        · simp [hs, ht, he, Nat.le_of_not_gt hs]
      · simp [hs, ht, typeReason_ne_extensionReason]

/-- C2, at the shipped configuration: a 15 MB file named `a.exe` gets the size
reason, a small `video/mp4` file named `a.exe` gets the type reason. -/
theorem validateFile_fail_fast_witness :
    validateFile refEngine CONFIG ⟨"a.exe", 15 * 1024 * 1024, "video/mp4"⟩
        = .error (sizeReason refEngine CONFIG) ∧
      validateFile refEngine CONFIG ⟨"a.exe", 1024, "video/mp4"⟩ = .error typeReason :=
  ⟨(validateFile_fail_fast refEngine CONFIG).1 _ (by decide),
    (validateFile_fail_fast refEngine CONFIG).2.1 _ (by decide) (by decide)⟩

theorem sizeReason_ne_empty (eng : Engine) (cfg : Config) : sizeReason eng cfg ≠ "" := by
  intro h
  have hd := congrArg String.data h
  simp [sizeReason, String.data_append] at hd

/-- C3: for a file larger than `MAX_SIZE`, `processFile` ends in the failure
outcome carrying the size reason; the only thing the run does is show that
reason, so none of `getPresignedUrl`, `uploadToS3`, `checkProcessingStatus`
and `getResult` is invoked, and the session state is untouched. -/
theorem processFile_oversize_no_network_call (eng : Engine) (cfg : Config) (world : World)
    (state : AppState) (file : File) (h : file.size > cfg.FILE_VALIDATION.MAX_SIZE) :
    (processFile eng cfg world state file).outcome = Outcome.failed (sizeReason eng cfg) ∧
    (processFile eng cfg world state file).events = [Event.showError (sizeReason eng cfg)] ∧
    (∀ e ∈ (processFile eng cfg world state file).events, e.isNetworkCall = false) ∧
    (processFile eng cfg world state file).state = state := by
  have hv : validateFile eng cfg file = .error (sizeReason eng cfg) :=
    validateFile_oversize eng cfg file h
  have hrun : processFile eng cfg world state file
      = ⟨state, [Event.showError (sizeReason eng cfg)], Outcome.failed (sizeReason eng cfg)⟩ := by
    simp [processFile, hv, catchError, sizeReason_ne_empty eng cfg]
  rw [hrun]
  refine ⟨rfl, rfl, ?_, rfl⟩
  intro e he
  rw [List.mem_singleton] at he
  subst he
  rfl

/-- C3, at the shipped configuration: a 15 MB PDF is rejected with the size
reason and nothing else happens, although the world would let every phase
succeed. -/
theorem processFile_oversize_witness :
    (processFile refEngine CONFIG sampleWorld AppState.initial oversizePdf).outcome
      = Outcome.failed (sizeReason refEngine CONFIG) ∧
    (processFile refEngine CONFIG sampleWorld AppState.initial oversizePdf).events
      = [Event.showError (sizeReason refEngine CONFIG)] ∧
    (∀ e ∈ (processFile refEngine CONFIG sampleWorld AppState.initial oversizePdf).events,
      e.isNetworkCall = false) ∧
    (processFile refEngine CONFIG sampleWorld AppState.initial oversizePdf).state
      = AppState.initial :=
  processFile_oversize_no_network_call refEngine CONFIG sampleWorld AppState.initial
    oversizePdf (by decide)


/-! ## Polling: properties -/

theorem checkProcessingStatus_eq_ok_true_iff (fetched : Except String Response) :
    checkProcessingStatus fetched = .ok true ↔ isSuccessStatus fetched = true := by
  cases fetched with
  | error m => simp [checkProcessingStatus, isSuccessStatus]
  | ok response =>
    simp only [checkProcessingStatus, isSuccessStatus, Response.ok]
    by_cases h404 : response.status = 404
    · simp [h404]
    · by_cases hok : (200 ≤ response.status && response.status ≤ 299) = true
      · simp [h404, hok]
      · simp [h404, hok]

theorem pollTick_timeout (cfg : Config) (fileId : Option String)
    (statusResponse : Nat → Except String Response) (attempts : Nat)
    (h : cfg.POLLING.MAX_ATTEMPTS < attempts + 1) :
    pollTick cfg fileId statusResponse attempts =
      ⟨[Event.updateProgress (pollingProgressValue (attempts + 1)) "Analizando contenido",
          Event.clearInterval], attempts + 1, some (.error timeoutReason)⟩ := by
  simp [pollTick, h]

theorem pollTick_ready (cfg : Config) (fileId : Option String)
    (statusResponse : Nat → Except String Response) (attempts : Nat)
    (h : attempts + 1 ≤ cfg.POLLING.MAX_ATTEMPTS)
    (hs : isSuccessStatus (statusResponse (attempts + 1)) = true) :
    pollTick cfg fileId statusResponse attempts =
      ⟨queryingTick fileId (attempts + 1) ++ [Event.clearInterval], attempts + 1,
        some (.ok ())⟩ := by
  have hc := (checkProcessingStatus_eq_ok_true_iff _).mpr hs
  simp [pollTick, Nat.not_lt.mpr h, hc, queryingTick]

theorem pollTick_continue (cfg : Config) (fileId : Option String)
    (statusResponse : Nat → Except String Response) (attempts : Nat)
    (h : attempts + 1 ≤ cfg.POLLING.MAX_ATTEMPTS)
    (hs : isSuccessStatus (statusResponse (attempts + 1)) = false) :
    pollTick cfg fileId statusResponse attempts =
      ⟨queryingTick fileId (attempts + 1), attempts + 1, none⟩ := by
  have hc : checkProcessingStatus (statusResponse (attempts + 1)) ≠ .ok true := by
    intro hc
    rw [(checkProcessingStatus_eq_ok_true_iff _).mp hc] at hs
    cases hs
  simp only [pollTick, if_neg (Nat.not_lt.mpr h), queryingTick]
  split
  · next heq => exact absurd heq hc
  · rfl
  · rfl

theorem tickFires_timeout (cfg : Config) (fileId : Option String) (attempts : Nat)
    (h : cfg.POLLING.MAX_ATTEMPTS < attempts + 1) :
    tickFires cfg fileId attempts =
      ⟨[Event.updateProgress (pollingProgressValue (attempts + 1)) "Analizando contenido",
          Event.clearInterval], attempts + 1, some (.error timeoutReason)⟩ := by
  simp [tickFires, h]

theorem tickFires_query (cfg : Config) (fileId : Option String) (attempts : Nat)
    (h : attempts + 1 ≤ cfg.POLLING.MAX_ATTEMPTS) :
    tickFires cfg fileId attempts = ⟨queryingTick fileId (attempts + 1), attempts + 1, none⟩ := by
  simp [tickFires, Nat.not_lt.mpr h, queryingTick]

theorem answersArrive_eq (answers : List (Except String Response)) :
    answersArrive answers =
      if answers.any isSuccessStatus then ([Event.clearInterval], some (.ok ()))
      else ([], none) := by
  induction answers with
  | nil => rfl
  | cons fetched later ih =>
    cases hs : isSuccessStatus fetched with
    | true =>
      have hc := (checkProcessingStatus_eq_ok_true_iff fetched).mpr hs
      simp [answersArrive, hc, hs]
    | false =>
      have hc : checkProcessingStatus fetched ≠ .ok true := by
        intro hc
        rw [(checkProcessingStatus_eq_ok_true_iff fetched).mp hc] at hs
        cases hs
      have hstep : answersArrive (fetched :: later) = answersArrive later := by
        rw [answersArrive]
        split
        · next heq => exact absurd heq hc
        · rfl
        · rfl
      rw [hstep, ih]
      simp [hs]

theorem answersArrive_of_ready (statusResponse : Nat → Except String Response)
    (statusDelay : Nat → Nat) (tick : Nat)
    (h : readyArrives statusResponse statusDelay tick = true) :
    answersArrive (arrivals statusResponse statusDelay tick)
      = ([Event.clearInterval], some (.ok ())) := by
  rw [answersArrive_eq]
  unfold readyArrives at h
  rw [if_pos h]

theorem answersArrive_of_not_ready (statusResponse : Nat → Except String Response)
    (statusDelay : Nat → Nat) (tick : Nat)
    (h : readyArrives statusResponse statusDelay tick = false) :
    answersArrive (arrivals statusResponse statusDelay tick) = ([], none) := by
  rw [answersArrive_eq]
  unfold readyArrives at h
  simp [h]

/-- A success answer arrives after tick `tick` exactly when some query issued at
a tick `issued` with `issued + statusDelay issued = tick` is answered with a
success status. -/
theorem readyArrives_iff (statusResponse : Nat → Except String Response)
    (statusDelay : Nat → Nat) (tick : Nat) :
    readyArrives statusResponse statusDelay tick = true ↔
      ∃ issued, 1 ≤ issued ∧ issued + statusDelay issued = tick ∧
        isSuccessStatus (statusResponse issued) = true := by
  unfold readyArrives arrivals
  rw [List.any_eq_true]
  constructor
  · rintro ⟨answer, hmem, hs⟩
    rw [List.mem_map] at hmem
    obtain ⟨issued, hissued, rfl⟩ := hmem
    rw [List.mem_filter, List.mem_range'_1] at hissued
    exact ⟨issued, hissued.1.1, by simpa using hissued.2, hs⟩
  · rintro ⟨issued, h1, harrive, hs⟩
    refine ⟨statusResponse issued, ?_, hs⟩
    rw [List.mem_map]
    refine ⟨issued, ?_, rfl⟩
    rw [List.mem_filter, List.mem_range'_1]
    exact ⟨⟨h1, by omega⟩, by simpa using harrive⟩

theorem readyArrives_of_prompt (statusResponse : Nat → Except String Response)
    (statusDelay : Nat → Nat) (hprompt : ∀ n, statusDelay n = 0) (tick : Nat)
    (h1 : 1 ≤ tick) :
    readyArrives statusResponse statusDelay tick = isSuccessStatus (statusResponse tick) := by
  rw [Bool.eq_iff_iff, readyArrives_iff]
  constructor
  · rintro ⟨issued, _, harrive, hs⟩
    rw [hprompt issued] at harrive
    have : issued = tick := by omega
    rw [← this]
    exact hs
  · intro hs
    exact ⟨tick, h1, by rw [hprompt tick]; rfl, hs⟩

theorem find?_congr_of_mem {α : Type} (p q : α → Bool) (l : List α)
    (h : ∀ x ∈ l, p x = q x) : l.find? p = l.find? q := by
  induction l with
  | nil => rfl
  | cons x l ih =>
    rw [List.find?_cons, List.find?_cons, h x (List.mem_cons_self _ _),
      ih (fun y hy => h y (List.mem_cons_of_mem _ hy))]

/-- The timer started with the counter at `a` and `n` attempts left: it resolves
after the first tick that is followed by the arrival of a success answer, and
tick `MAX_ATTEMPTS + 1` rejects when there is none. -/
theorem pollLoop_eq_from (cfg : Config) (fileId : Option String)
    (statusResponse : Nat → Except String Response) (statusDelay : Nat → Nat) (n a : Nat)
    (h : a + n = cfg.POLLING.MAX_ATTEMPTS) :
    pollLoop cfg fileId statusResponse statusDelay a =
      match (List.range' (a + 1) n).find? (readyArrives statusResponse statusDelay) with
      | some k =>
        ⟨(List.range' (a + 1) (k - a)).flatMap (queryingTick fileId) ++ [Event.clearInterval],
          k, .ok ()⟩
      | none =>
        ⟨(List.range' (a + 1) n).flatMap (queryingTick fileId) ++
            [Event.updateProgress (pollingProgressValue (cfg.POLLING.MAX_ATTEMPTS + 1))
                "Analizando contenido",
              Event.clearInterval],
          cfg.POLLING.MAX_ATTEMPTS + 1, .error timeoutReason⟩ := by
  induction n generalizing a with
  | zero =>
    have ha : a = cfg.POLLING.MAX_ATTEMPTS := by omega
    rw [pollLoop]
    split
    · next outcome hso =>
      rw [tickFires_timeout cfg fileId a (by omega)] at hso ⊢
      simp at hso
      subst hso
      simp [ha]
    · next hno =>
      rw [tickFires_timeout cfg fileId a (by omega)] at hno
      simp at hno
  | succ n ih =>
    have hle : a + 1 ≤ cfg.POLLING.MAX_ATTEMPTS := by omega
    rw [pollLoop]
    split
    · next outcome hso =>
      rw [tickFires_query cfg fileId a hle] at hso
      simp at hso
    · next hno =>
      rw [tickFires_query cfg fileId a hle]
      cases hs : readyArrives statusResponse statusDelay (a + 1) with
      | true =>
        simp only [answersArrive_of_ready statusResponse statusDelay (a + 1) hs]
        simp [List.range'_succ, hs]
      | false =>
        have hfind : (List.range' (a + 1) (n + 1)).find?
              (readyArrives statusResponse statusDelay)
            = (List.range' (a + 1 + 1) n).find? (readyArrives statusResponse statusDelay) := by
          rw [List.range'_succ, List.find?_cons, hs]
        have hrec := ih (a + 1) (by omega)
        simp only [answersArrive_of_not_ready statusResponse statusDelay (a + 1) hs]
        rw [hrec, hfind]
        cases hk : (List.range' (a + 1 + 1) n).find?
            (readyArrives statusResponse statusDelay) with
        | none =>
          simp [List.range'_succ]
        | some k =>
          have hmem := List.mem_of_find?_eq_some hk
          rw [List.mem_range'_1] at hmem
          have hka : k - a = (k - (a + 1)) + 1 := by omega
          simp only [hka, List.range'_succ]
          simp

theorem waitForProcessing_eq_first_arrival (cfg : Config) (fileId : Option String)
    (statusResponse : Nat → Except String Response) (statusDelay : Nat → Nat) :
    waitForProcessing cfg fileId statusResponse statusDelay =
      match (List.range' 1 cfg.POLLING.MAX_ATTEMPTS).find?
          (readyArrives statusResponse statusDelay) with
      | some k =>
        ⟨(List.range' 1 k).flatMap (queryingTick fileId) ++ [Event.clearInterval], k, .ok ()⟩
      | none =>
        ⟨(List.range' 1 cfg.POLLING.MAX_ATTEMPTS).flatMap (queryingTick fileId) ++
            [Event.updateProgress (pollingProgressValue (cfg.POLLING.MAX_ATTEMPTS + 1))
                "Analizando contenido",
              Event.clearInterval],
          cfg.POLLING.MAX_ATTEMPTS + 1, .error timeoutReason⟩ := by
  have h := pollLoop_eq_from cfg fileId statusResponse statusDelay cfg.POLLING.MAX_ATTEMPTS 0
    (by omega)
  simpa [waitForProcessing] using h

/-- When every answer arrives before the next tick, the timer is the reference
loop. -/
theorem waitForProcessing_eq_reference (cfg : Config) (fileId : Option String)
    (statusResponse : Nat → Except String Response) (statusDelay : Nat → Nat)
    (hprompt : ∀ n, statusDelay n = 0) :
    waitForProcessing cfg fileId statusResponse statusDelay
      = pollReference cfg.POLLING.MAX_ATTEMPTS fileId statusResponse := by
  rw [waitForProcessing_eq_first_arrival, pollReference]
  have hfind : (List.range' 1 cfg.POLLING.MAX_ATTEMPTS).find?
        (readyArrives statusResponse statusDelay)
      = (List.range' 1 cfg.POLLING.MAX_ATTEMPTS).find?
        (fun i => isSuccessStatus (statusResponse i)) := by
    apply find?_congr_of_mem
    intro i hi
    rw [List.mem_range'_1] at hi
    exact readyArrives_of_prompt statusResponse statusDelay hprompt i hi.1
  rw [hfind]

theorem statusQueries_flatMap_queryingTick (fileId : Option String) (ticks : List Nat) :
    statusQueries (ticks.flatMap (queryingTick fileId)) = ticks.length := by
  induction ticks with
  | nil => rfl
  | cons i ticks ih =>
    unfold statusQueries at ih ⊢
    rw [List.flatMap_cons, List.countP_append, ih]
    simp [queryingTick, List.countP_cons]
    omega

theorem progressValues_flatMap_queryingTick (fileId : Option String) (ticks : List Nat) :
    progressValues (ticks.flatMap (queryingTick fileId)) = ticks.map pollingProgressValue := by
  induction ticks with
  | nil => rfl
  | cons i ticks ih =>
    unfold progressValues at ih ⊢
    rw [List.flatMap_cons, List.filterMap_append, ih]
    simp [queryingTick, Event.percent?]

/-- With no success answer to any query, the loop runs `maxAttempts` querying
ticks and is rejected by tick `maxAttempts + 1`, whenever the answers arrive. -/
theorem waitForProcessing_of_no_success (cfg : Config) (fileId : Option String)
    (statusResponse : Nat → Except String Response) (statusDelay : Nat → Nat)
    (h : ∀ i, 1 ≤ i → i ≤ cfg.POLLING.MAX_ATTEMPTS → isSuccessStatus (statusResponse i) = false) :
    waitForProcessing cfg fileId statusResponse statusDelay =
      ⟨(List.range' 1 cfg.POLLING.MAX_ATTEMPTS).flatMap (queryingTick fileId) ++
          [Event.updateProgress (pollingProgressValue (cfg.POLLING.MAX_ATTEMPTS + 1))
              "Analizando contenido",
            Event.clearInterval],
        cfg.POLLING.MAX_ATTEMPTS + 1, .error timeoutReason⟩ := by
  rw [waitForProcessing_eq_first_arrival]
  have hnone : (List.range' 1 cfg.POLLING.MAX_ATTEMPTS).find?
      (readyArrives statusResponse statusDelay) = none := by
    rw [List.find?_eq_none]
    intro tick htick hready
    rw [List.mem_range'_1] at htick
    obtain ⟨issued, h1, harrive, hs⟩ :=
      (readyArrives_iff statusResponse statusDelay tick).mp hready
    rw [h issued h1 (by omega)] at hs
    cases hs
  rw [hnone]

/-- With prompt answers and the first success answer at tick `k`, the loop runs
`k` querying ticks and resolves. -/
theorem waitForProcessing_of_first_success (cfg : Config) (fileId : Option String)
    (statusResponse : Nat → Except String Response) (statusDelay : Nat → Nat) (k : Nat)
    (hprompt : ∀ n, statusDelay n = 0)
    (hk1 : 1 ≤ k) (hk : k ≤ cfg.POLLING.MAX_ATTEMPTS)
    (hs : isSuccessStatus (statusResponse k) = true)
    (h : ∀ i, 1 ≤ i → i < k → isSuccessStatus (statusResponse i) = false) :
    waitForProcessing cfg fileId statusResponse statusDelay =
      ⟨(List.range' 1 k).flatMap (queryingTick fileId) ++ [Event.clearInterval], k, .ok ()⟩ := by
  rw [waitForProcessing_eq_reference cfg fileId statusResponse statusDelay hprompt,
    pollReference]
  have hsome : (List.range' 1 cfg.POLLING.MAX_ATTEMPTS).find?
      (fun i => isSuccessStatus (statusResponse i)) = some k := by
    rw [List.find?_range'_eq_some]
    refine ⟨hs, ?_, ?_⟩
    · rw [List.mem_range'_1]
      omega
    · intro j hj1 hjk
      simp [h j hj1 hjk]
  rw [hsome]

/-- The timer resolves exactly when a success answer arrives before tick
`MAX_ATTEMPTS + 1` fires; otherwise that tick rejects with the timeout reason. -/
theorem waitForProcessing_outcome (cfg : Config) (fileId : Option String)
    (statusResponse : Nat → Except String Response) (statusDelay : Nat → Nat) :
    ((waitForProcessing cfg fileId statusResponse statusDelay).outcome = .ok () ↔
      ∃ issued, 1 ≤ issued ∧ issued + statusDelay issued ≤ cfg.POLLING.MAX_ATTEMPTS ∧
        isSuccessStatus (statusResponse issued) = true) ∧
    ((waitForProcessing cfg fileId statusResponse statusDelay).outcome ≠ .ok () →
      (waitForProcessing cfg fileId statusResponse statusDelay).outcome
        = .error timeoutReason) := by
  rw [waitForProcessing_eq_first_arrival]
  cases hk : (List.range' 1 cfg.POLLING.MAX_ATTEMPTS).find?
      (readyArrives statusResponse statusDelay) with
  | some k =>
    have hmem := List.mem_of_find?_eq_some hk
    rw [List.mem_range'_1] at hmem
    have hready := List.find?_some hk
    obtain ⟨issued, h1, harrive, hs⟩ :=
      (readyArrives_iff statusResponse statusDelay k).mp hready
    refine ⟨⟨fun _ => ⟨issued, h1, by omega, hs⟩, fun _ => rfl⟩, ?_⟩
    intro hne
    exact absurd rfl hne
  | none =>
    refine ⟨⟨fun hok => (by cases hok), ?_⟩, fun _ => rfl⟩
    rintro ⟨issued, h1, harrive, hs⟩
    exfalso
    rw [List.find?_eq_none] at hk
    apply hk (issued + statusDelay issued) (by rw [List.mem_range'_1]; omega)
    exact (readyArrives_iff statusResponse statusDelay _).mpr ⟨issued, h1, rfl, hs⟩

/-- With a prompt answer, the callback is its part before the `await` followed
by the callback resumed by that answer. -/
theorem pollTick_eq_tickFires (cfg : Config) (fileId : Option String)
    (statusResponse : Nat → Except String Response) (attempts : Nat) :
    pollTick cfg fileId statusResponse attempts =
      match (tickFires cfg fileId attempts).settled with
      | some _ => tickFires cfg fileId attempts
      | none =>
        ⟨(tickFires cfg fileId attempts).events
            ++ (answersArrive [statusResponse (attempts + 1)]).1,
          (tickFires cfg fileId attempts).pollingAttempts,
          (answersArrive [statusResponse (attempts + 1)]).2⟩ := by
  by_cases hmax : cfg.POLLING.MAX_ATTEMPTS < attempts + 1
  · rw [pollTick_timeout cfg fileId statusResponse attempts hmax,
      tickFires_timeout cfg fileId attempts hmax]
  · have hle : attempts + 1 ≤ cfg.POLLING.MAX_ATTEMPTS := by omega
    rw [tickFires_query cfg fileId attempts hle, answersArrive_eq]
    cases hs : isSuccessStatus (statusResponse (attempts + 1)) with
    | true =>
      rw [pollTick_ready cfg fileId statusResponse attempts hle hs]
      simp [hs]
    | false =>
      rw [pollTick_continue cfg fileId statusResponse attempts hle hs]
      simp [hs]

theorem isSuccessStatus_of_status_404 (response : Response) (h : response.status = 404) :
    isSuccessStatus (.ok response) = false := by
  simp [isSuccessStatus, h]

theorem neverReady_is_404 (n : Nat) :
    ∃ response : Response, neverReady n = .ok response ∧ response.status = 404 :=
  ⟨⟨404, .error "Unexpected end of JSON input"⟩, rfl, rfl⟩

/-- C4 (as amended): when the status endpoint answers 404 on every query,
`waitForProcessing` issues exactly `MAX_ATTEMPTS` status queries, one at each
of the ticks `1 .. MAX_ATTEMPTS`; tick `MAX_ATTEMPTS + 1` issues no query and
rejects with the timeout reason. This holds whenever the answers arrive. -/
theorem waitForProcessing_always_not_ready (cfg : Config) (fileId : Option String)
    (statusResponse : Nat → Except String Response) (statusDelay : Nat → Nat)
    (h : ∀ n, ∃ response, statusResponse n = .ok response ∧ response.status = 404) :
    (waitForProcessing cfg fileId statusResponse statusDelay).outcome = .error timeoutReason ∧
    statusQueries (waitForProcessing cfg fileId statusResponse statusDelay).events
      = cfg.POLLING.MAX_ATTEMPTS ∧
    (progressValues (waitForProcessing cfg fileId statusResponse statusDelay).events).length
      = cfg.POLLING.MAX_ATTEMPTS + 1 ∧
    (waitForProcessing cfg fileId statusResponse statusDelay).pollingAttempts
      = cfg.POLLING.MAX_ATTEMPTS + 1 ∧
    (waitForProcessing cfg fileId statusResponse statusDelay).events
      = (List.range' 1 cfg.POLLING.MAX_ATTEMPTS).flatMap (queryingTick fileId) ++
          [Event.updateProgress (pollingProgressValue (cfg.POLLING.MAX_ATTEMPTS + 1))
              "Analizando contenido",
            Event.clearInterval] := by
  have hno : ∀ i, 1 ≤ i → i ≤ cfg.POLLING.MAX_ATTEMPTS →
      isSuccessStatus (statusResponse i) = false := by
    intro i _ _
    obtain ⟨response, hr, h404⟩ := h i
    rw [hr]
    exact isSuccessStatus_of_status_404 response h404
  rw [waitForProcessing_of_no_success cfg fileId statusResponse statusDelay hno]
  refine ⟨rfl, ?_, ?_, rfl, rfl⟩
  · have hq := statusQueries_flatMap_queryingTick fileId (List.range' 1 cfg.POLLING.MAX_ATTEMPTS)
    unfold statusQueries at hq ⊢
    rw [List.countP_append, hq]
    simp [List.countP_cons]
  · have hp := progressValues_flatMap_queryingTick fileId
      (List.range' 1 cfg.POLLING.MAX_ATTEMPTS)
    unfold progressValues at hp ⊢
    rw [List.filterMap_append, hp]
    simp [Event.percent?]

/-- C4, at the shipped configuration: 40 queries over 41 ticks, with prompt
answers and with late answers alike. -/
theorem waitForProcessing_always_not_ready_witness :
    ((waitForProcessing CONFIG none neverReady promptAnswers).outcome = .error timeoutReason ∧
      statusQueries (waitForProcessing CONFIG none neverReady promptAnswers).events = 40 ∧
      (progressValues (waitForProcessing CONFIG none neverReady promptAnswers).events).length
        = 41 ∧
      (waitForProcessing CONFIG none neverReady promptAnswers).pollingAttempts = 41) ∧
    ((waitForProcessing CONFIG none neverReady lateAnswers).outcome = .error timeoutReason ∧
      statusQueries (waitForProcessing CONFIG none neverReady lateAnswers).events = 40) :=
  ⟨⟨(waitForProcessing_always_not_ready CONFIG none neverReady promptAnswers
        neverReady_is_404).1,
      (waitForProcessing_always_not_ready CONFIG none neverReady promptAnswers
        neverReady_is_404).2.1,
      (waitForProcessing_always_not_ready CONFIG none neverReady promptAnswers
        neverReady_is_404).2.2.1,
      (waitForProcessing_always_not_ready CONFIG none neverReady promptAnswers
        neverReady_is_404).2.2.2.1⟩,
    ⟨(waitForProcessing_always_not_ready CONFIG none neverReady lateAnswers
        neverReady_is_404).1,
      (waitForProcessing_always_not_ready CONFIG none neverReady lateAnswers
        neverReady_is_404).2.1⟩⟩

/-- C4 as stated fails: under the shipped `MAX_ATTEMPTS = 40` an endpoint that
always answers 404 is queried 40 times before the timeout, not 41 times. -/
theorem waitForProcessing_not_ready_counterexample :
    CONFIG.POLLING.MAX_ATTEMPTS = 40 ∧
    (waitForProcessing CONFIG none neverReady promptAnswers).outcome = .error timeoutReason ∧
    statusQueries (waitForProcessing CONFIG none neverReady promptAnswers).events = 40 ∧
    statusQueries (waitForProcessing CONFIG none neverReady promptAnswers).events
      ≠ CONFIG.POLLING.MAX_ATTEMPTS + 1 := by
  rw [waitForProcessing_of_no_success CONFIG none neverReady promptAnswers
    (fun i _ _ => isSuccessStatus_of_status_404 _ rfl)]
  have hq := statusQueries_flatMap_queryingTick none (List.range' 1 CONFIG.POLLING.MAX_ATTEMPTS)
  have hcount : statusQueries
      ((List.range' 1 CONFIG.POLLING.MAX_ATTEMPTS).flatMap (queryingTick none) ++
        [Event.updateProgress (pollingProgressValue (CONFIG.POLLING.MAX_ATTEMPTS + 1))
            "Analizando contenido",
          Event.clearInterval]) = 40 := by
    unfold statusQueries at hq ⊢
    rw [List.countP_append, hq]
    simp [List.countP_cons, CONFIG]
  refine ⟨rfl, rfl, hcount, ?_⟩
  rw [hcount]
  decide

/-- C5 (as amended): when every status answer arrives before the next tick
fires, the polling loop behaves as the reference loop `pollReference`: it
resolves at the first tick `i ≤ MAX_ATTEMPTS` answered with a success status
and otherwise rejects with the timeout reason; every tick raises the attempt
counter by one; a tick within the budget whose answer is not a success status
(404, any other status, a failed request) issues one query, consumes that one
attempt and leaves the timer running. Whenever the answers arrive, the loop
resolves exactly when a success answer arrives before tick `MAX_ATTEMPTS + 1`
fires, and that tick rejects with the timeout reason otherwise. -/
theorem waitForProcessing_behaves_as_reference (cfg : Config) (fileId : Option String)
    (statusResponse : Nat → Except String Response) (statusDelay : Nat → Nat) :
    ((∀ n, statusDelay n = 0) →
      waitForProcessing cfg fileId statusResponse statusDelay
        = pollReference cfg.POLLING.MAX_ATTEMPTS fileId statusResponse) ∧
    (∀ attempts,
      (pollTick cfg fileId statusResponse attempts).pollingAttempts = attempts + 1 ∧
      (tickFires cfg fileId attempts).pollingAttempts = attempts + 1) ∧
    (∀ attempts, attempts + 1 ≤ cfg.POLLING.MAX_ATTEMPTS →
      isSuccessStatus (statusResponse (attempts + 1)) = false →
      (pollTick cfg fileId statusResponse attempts).settled = none ∧
      statusQueries (pollTick cfg fileId statusResponse attempts).events = 1) ∧
    ((waitForProcessing cfg fileId statusResponse statusDelay).outcome = .ok () ↔
      ∃ issued, 1 ≤ issued ∧ issued + statusDelay issued ≤ cfg.POLLING.MAX_ATTEMPTS ∧
        isSuccessStatus (statusResponse issued) = true) ∧
    ((waitForProcessing cfg fileId statusResponse statusDelay).outcome ≠ .ok () →
      (waitForProcessing cfg fileId statusResponse statusDelay).outcome
        = .error timeoutReason) := by
  refine ⟨?_, ?_, ?_, (waitForProcessing_outcome cfg fileId statusResponse statusDelay).1,
    (waitForProcessing_outcome cfg fileId statusResponse statusDelay).2⟩
  · intro hprompt
    exact waitForProcessing_eq_reference cfg fileId statusResponse statusDelay hprompt
  · intro attempts
    by_cases hmax : cfg.POLLING.MAX_ATTEMPTS < attempts + 1
    · rw [pollTick_timeout cfg fileId statusResponse attempts hmax,
        tickFires_timeout cfg fileId attempts hmax]
      exact ⟨rfl, rfl⟩
    · rw [tickFires_query cfg fileId attempts (by omega)]
      cases hs : isSuccessStatus (statusResponse (attempts + 1)) with
      | true =>
        rw [pollTick_ready cfg fileId statusResponse attempts (by omega) hs]
        exact ⟨rfl, rfl⟩
      | false =>
        rw [pollTick_continue cfg fileId statusResponse attempts (by omega) hs]
        exact ⟨rfl, rfl⟩
  · intro attempts hle hs
    rw [pollTick_continue cfg fileId statusResponse attempts hle hs]
    exact ⟨rfl, rfl⟩

/-- C5, on an endpoint that answers 404, 500, a network failure and then 204,
each before the next tick: the loop is the reference loop, which resolves at
tick 4 after 4 queries. -/
theorem waitForProcessing_behaves_as_reference_witness :
    waitForProcessing CONFIG none flakyThenReady promptAnswers
      = pollReference 40 none flakyThenReady ∧
    (pollReference 40 none flakyThenReady).pollingAttempts = 4 ∧
    (pollReference 40 none flakyThenReady).outcome = .ok () ∧
    statusQueries (pollReference 40 none flakyThenReady).events = 4 :=
  ⟨(waitForProcessing_behaves_as_reference CONFIG none flakyThenReady promptAnswers).1
      (fun _ => rfl), rfl, rfl, rfl⟩

/-- C5 as stated fails: with `MAX_ATTEMPTS = 1` and a 200 answer to the query
of tick 1 that arrives only after tick 2 has fired, tick 2 rejects with the
timeout reason, although the reference loop resolves at tick 1. -/
theorem waitForProcessing_late_answer_counterexample :
    maxAttempts1.POLLING.MAX_ATTEMPTS = 1 ∧
    isSuccessStatus (alwaysReady 1) = true ∧
    lateAnswers 1 = 1 ∧
    (pollReference 1 none alwaysReady).outcome = .ok () ∧
    (waitForProcessing maxAttempts1 none alwaysReady lateAnswers).outcome
      = .error timeoutReason ∧
    (waitForProcessing maxAttempts1 none alwaysReady lateAnswers).events
      = [Event.updateProgress (pollingProgressValue 1) "Analizando contenido",
          Event.checkProcessingStatus none,
          Event.updateProgress (pollingProgressValue 2) "Analizando contenido",
          Event.clearInterval] := by
  have hrun := waitForProcessing_eq_first_arrival maxAttempts1 none alwaysReady lateAnswers
  have hfind : (List.range' 1 maxAttempts1.POLLING.MAX_ATTEMPTS).find?
      (readyArrives alwaysReady lateAnswers) = none := by
    decide
  rw [hfind] at hrun
  rw [hrun]
  exact ⟨rfl, rfl, rfl, rfl, rfl, rfl⟩


/-- Under the shipped configuration, a 200 answer to the 40th query that arrives
only after tick 41 has fired comes too late: the loop rejects with the timeout
reason. -/
theorem waitForProcessing_shipped_late_answer :
    isSuccessStatus (readyAtLast 40) = true ∧
    (pollReference 40 none readyAtLast).outcome = .ok () ∧
    (waitForProcessing CONFIG none readyAtLast lateAnswers).outcome = .error timeoutReason := by
  refine ⟨rfl, rfl, ?_⟩
  apply (waitForProcessing_outcome CONFIG none readyAtLast lateAnswers).2
  intro hok
  obtain ⟨issued, h1, harrive, hs⟩ :=
    (waitForProcessing_outcome CONFIG none readyAtLast lateAnswers).1.mp hok
  have hlt : issued < 40 := by
    have hd : lateAnswers issued = 1 := rfl
    have hN : CONFIG.POLLING.MAX_ATTEMPTS = 40 := rfl
    omega
  simp [readyAtLast, hlt, isSuccessStatus] at hs

/-! ## Progress values: properties -/

theorem uploadProgressValue_eq (event : ProgressEvent) (h : event.lengthComputable = true) :
    uploadProgressValue event
      = some (20 + (((event.loaded : ℚ) / (event.total : ℚ)) * 100) * (2 / 5)) := by
  simp [uploadProgressValue, h]

theorem uploadProgressValue_some (event : ProgressEvent) (p : ℚ)
    (h : uploadProgressValue event = some p) :
    p = 20 + (((event.loaded : ℚ) / (event.total : ℚ)) * 100) * (2 / 5) := by
  unfold uploadProgressValue at h
  split at h
  · exact (Option.some.inj h).symm
  · cases h

theorem uploadFraction_bounds (loaded total : Nat) (htotal : 0 < total) (hle : loaded ≤ total) :
    0 ≤ (loaded : ℚ) / (total : ℚ) ∧ (loaded : ℚ) / (total : ℚ) ≤ 1 := by
  have ht : (0 : ℚ) < (total : ℚ) := by exact_mod_cast htotal
  have hl : (loaded : ℚ) ≤ (total : ℚ) := by exact_mod_cast hle
  have h0 : (0 : ℚ) ≤ (loaded : ℚ) := by exact_mod_cast Nat.zero_le loaded
  exact ⟨div_nonneg h0 ht.le, (div_le_one ht).mpr hl⟩

theorem uploadFraction_mono (loaded loaded2 total : Nat) (hle : loaded ≤ loaded2) :
    (loaded : ℚ) / (total : ℚ) ≤ (loaded2 : ℚ) / (total : ℚ) := by
  have ht : (0 : ℚ) ≤ (total : ℚ) := by exact_mod_cast Nat.zero_le total
  have hl : (loaded : ℚ) ≤ (loaded2 : ℚ) := by exact_mod_cast hle
  exact div_le_div_of_nonneg_right hl ht

/-- C7: for a progress event with `total > 0` and `loaded ≤ total`, the
percent that the listener of `uploadToS3` reports is
`20 + (loaded / total) * (60 - 20)`, that is `20 + 40 * loaded / total`; it
lies in `[20, 60]`; it is reported whenever the event is length-computable;
and it does not decrease when `loaded` grows under the same `total`. -/
theorem uploadProgressValue_band (event : ProgressEvent)
    (htotal : 0 < event.total) (hloaded : event.loaded ≤ event.total) :
    (∀ p, uploadProgressValue event = some p →
      p = 20 + ((event.loaded : ℚ) / (event.total : ℚ)) * (60 - 20) ∧
      p = 20 + 40 * (event.loaded : ℚ) / (event.total : ℚ) ∧
      20 ≤ p ∧ p ≤ 60) ∧
    (event.lengthComputable = true → ∃ p, uploadProgressValue event = some p) ∧
    (∀ later : ProgressEvent, later.total = event.total → event.loaded ≤ later.loaded →
      ∀ p q, uploadProgressValue event = some p → uploadProgressValue later = some q →
        p ≤ q) := by
  obtain ⟨hf0, hf1⟩ := uploadFraction_bounds event.loaded event.total htotal hloaded
  refine ⟨?_, ?_, ?_⟩
  · intro p hp
    have hp2 := uploadProgressValue_some event p hp
    refine ⟨?_, ?_, ?_, ?_⟩
    · rw [hp2]; ring
    · rw [hp2]; ring
    · rw [hp2]; linarith
    · rw [hp2]; linarith
  · intro hlc
    exact ⟨_, uploadProgressValue_eq event hlc⟩
  · intro later htot hle p q hp hq
    rw [uploadProgressValue_some event p hp, uploadProgressValue_some later q hq, htot]
    have hm := uploadFraction_mono event.loaded later.loaded event.total hle
    linarith

/-- C7, at half of a 5 MB transfer: the reported percent is 40. -/
theorem uploadProgressValue_band_witness :
    uploadProgressValue ⟨true, 2621440, 5242880⟩ = some 40 ∧
      (20 : ℚ) ≤ 40 ∧ (40 : ℚ) ≤ 60 := by
  have h := (uploadProgressValue_band ⟨true, 2621440, 5242880⟩ (by decide) (by decide)).1
  have hv : uploadProgressValue ⟨true, 2621440, 5242880⟩ = some 40 := by
    rw [uploadProgressValue_eq _ rfl]
    norm_num
  exact ⟨hv, (h 40 hv).2.2.1, (h 40 hv).2.2.2⟩

theorem pollingProgressValue_mono (a b : Nat) (h : a ≤ b) :
    pollingProgressValue a ≤ pollingProgressValue b := by
  have hc : (a : ℚ) ≤ (b : ℚ) := by exact_mod_cast h
  unfold pollingProgressValue
  linarith

theorem pollingProgressValue_lt_90_iff (a : Nat) : pollingProgressValue a < 90 ↔ a < 60 := by
  unfold pollingProgressValue
  constructor
  · intro h
    have h2 : (a : ℚ) < 60 := by linarith
    exact_mod_cast h2
  · intro h
    have h2 : (a : ℚ) < 60 := by exact_mod_cast h
    linarith

theorem progressValues_pollTick (cfg : Config) (fileId : Option String)
    (statusResponse : Nat → Except String Response) (attempts : Nat) :
    progressValues (pollTick cfg fileId statusResponse attempts).events
      = [pollingProgressValue (attempts + 1)] := by
  by_cases hmax : cfg.POLLING.MAX_ATTEMPTS < attempts + 1
  · rw [pollTick_timeout cfg fileId statusResponse attempts hmax]
    rfl
  · cases hs : isSuccessStatus (statusResponse (attempts + 1)) with
    | true =>
      rw [pollTick_ready cfg fileId statusResponse attempts (by omega) hs]
      rfl
    | false =>
      rw [pollTick_continue cfg fileId statusResponse attempts (by omega) hs]
      rfl

/-- C8 (as amended): a polling tick that raises the counter to `a` reports the
percent `60 + a / 2`, with no clamp; this is non-decreasing in `a`, and it is
below 90 exactly when `a < 60`, hence for every tick of a run whose
`MAX_ATTEMPTS` is at most 58. -/
theorem pollingProgress_below_next_phase (cfg : Config) (fileId : Option String)
    (statusResponse : Nat → Except String Response) (attempts : Nat)
    (hmax : cfg.POLLING.MAX_ATTEMPTS ≤ 58)
    (hreached : attempts + 1 ≤ cfg.POLLING.MAX_ATTEMPTS + 1) :
    progressValues (pollTick cfg fileId statusResponse attempts).events
      = [60 + ((attempts + 1 : Nat) : ℚ) / 2] ∧
    60 + ((attempts + 1 : Nat) : ℚ) / 2 < 90 ∧
    (∀ earlier, earlier ≤ attempts →
      ∀ p ∈ progressValues (pollTick cfg fileId statusResponse earlier).events,
        p ≤ 60 + ((attempts + 1 : Nat) : ℚ) / 2) ∧
    (∀ a : Nat, pollingProgressValue a < 90 ↔ a < 60) := by
  have hval : ∀ a : Nat, pollingProgressValue a = 60 + (a : ℚ) / 2 := by
    intro a
    unfold pollingProgressValue
    ring
  refine ⟨?_, ?_, ?_, pollingProgressValue_lt_90_iff⟩
  · rw [progressValues_pollTick, hval]
  · rw [← hval, pollingProgressValue_lt_90_iff]
    omega
  · intro earlier hle p hp
    rw [progressValues_pollTick, List.mem_singleton] at hp
    rw [hp, ← hval]
    exact pollingProgressValue_mono _ _ (by omega)

/-- C8, at the shipped configuration: the last tick of the budget, tick 41,
reports 80.5. -/
theorem pollingProgress_below_next_phase_witness :
    progressValues (pollTick CONFIG none sampleWorld.statusResponse 40).events
      = [60 + ((40 + 1 : Nat) : ℚ) / 2] ∧
    60 + ((40 + 1 : Nat) : ℚ) / 2 < 90 :=
  ⟨(pollingProgress_below_next_phase CONFIG none sampleWorld.statusResponse 40
      (by decide) (by decide)).1,
    (pollingProgress_below_next_phase CONFIG none sampleWorld.statusResponse 40
      (by decide) (by decide)).2.1⟩

/-- C8 as stated fails: with `MAX_ATTEMPTS = 59` and an endpoint that is never
ready, tick 60 (within `1 .. MAX_ATTEMPTS + 1`) reports exactly 90, which is
not below the 90 of the result-fetch phase. -/
theorem pollingProgress_not_clamped_counterexample :
    (1 ≤ 59 + 1 ∧ 59 + 1 ≤ maxAttempts59.POLLING.MAX_ATTEMPTS + 1) ∧
    progressValues (pollTick maxAttempts59 none neverReady 59).events = [90] ∧
    ¬ ((90 : ℚ) < 90) := by
  refine ⟨⟨by decide, by decide⟩, ?_, by norm_num⟩
  rw [progressValues_pollTick]
  norm_num [pollingProgressValue]


/-! ## The successful flow: properties -/

theorem progressValues_append (xs ys : List Event) :
    progressValues (xs ++ ys) = progressValues xs ++ progressValues ys := by
  simp [progressValues, List.filterMap_append]

theorem progressValues_uploadToS3 (presignedUrl : JsValue) (file : File)
    (progress : List ProgressEvent) (completion : XhrEnd) :
    progressValues (uploadToS3 presignedUrl file progress completion).1
      = progress.filterMap uploadProgressValue := by
  unfold uploadToS3 progressValues
  simp only [List.filterMap_cons, Event.percent?]
  induction progress with
  | nil => rfl
  | cons e es ih =>
    cases he : uploadProgressValue e with
    | none => simp [List.filterMap_cons, he, ih]
    | some v => simp [List.filterMap_cons, he, ih, Event.percent?]

theorem progressValues_getPresignedUrl (eng : Engine) (state : AppState) (file : File)
    (fetched : Except String Response) :
    progressValues (getPresignedUrl eng state file fetched).1 = [] := rfl

theorem progressValues_getResult (eng : Engine) (state : AppState)
    (fetched : Except String Response) :
    progressValues (getResult eng state fetched).1 = [] := rfl

/-- A polling phase that resolves did so at some tick `k` within the budget and
reported the percents of the ticks `1 .. k`. -/
theorem waitForProcessing_resolved (cfg : Config) (fileId : Option String)
    (statusResponse : Nat → Except String Response) (statusDelay : Nat → Nat) (u : Unit)
    (h : (waitForProcessing cfg fileId statusResponse statusDelay).outcome = .ok u) :
    ∃ k, 1 ≤ k ∧ k ≤ cfg.POLLING.MAX_ATTEMPTS ∧
      progressValues (waitForProcessing cfg fileId statusResponse statusDelay).events
        = (List.range' 1 k).map pollingProgressValue := by
  rw [waitForProcessing_eq_first_arrival] at h ⊢
  cases hk : (List.range' 1 cfg.POLLING.MAX_ATTEMPTS).find?
      (readyArrives statusResponse statusDelay) with
  | none =>
    rw [hk] at h
    cases h
  | some k =>
    have hmem := List.mem_of_find?_eq_some hk
    rw [List.mem_range'_1] at hmem
    refine ⟨k, hmem.1, by omega, ?_⟩
    simp only [progressValues_append, progressValues_flatMap_queryingTick]
    simp [progressValues, Event.percent?]

/-- The percents of a completed run, phase by phase. -/
theorem processFile_completed_progress (eng : Engine) (cfg : Config) (world : World)
    (state : AppState) (file : File) (result : Json)
    (h : (processFile eng cfg world state file).outcome = Outcome.completed result) :
    ∃ k, 1 ≤ k ∧ k ≤ cfg.POLLING.MAX_ATTEMPTS ∧
      progressValues (processFile eng cfg world state file).events
        = 10 :: 20 :: (world.uploadProgress.filterMap uploadProgressValue
            ++ 60 :: ((List.range' 1 k).map pollingProgressValue ++ [90, 100])) := by
  unfold processFile at h ⊢
  split at h
  · simp [catchError] at h
  · next hv =>
    simp only [hv]
    dsimp only at h
    split at h
    · simp [catchError] at h
    · next uploadUrl ha =>
      split at h
      · simp [catchError] at h
      · next ht =>
        split at h
        · simp [catchError] at h
        · next u hp =>
          split at h
          · simp [catchError] at h
          · next hr =>
            obtain ⟨k, hk1, hk, hvals⟩ := waitForProcessing_resolved cfg _ _ _ u hp
            refine ⟨k, hk1, hk, ?_⟩
            simp only [progressValues_append, progressValues_uploadToS3,
              progressValues_getPresignedUrl, progressValues_getResult, hvals]
            simp [progressValues, Event.percent?]

theorem uploadProgressValues_bounds (progress : List ProgressEvent) (total : Nat)
    (htotal : 0 < total)
    (hbounds : ∀ e ∈ progress, e.total = total ∧ e.loaded ≤ total) :
    ∀ p ∈ progress.filterMap uploadProgressValue, 20 ≤ p ∧ p ≤ 60 := by
  intro p hp
  rw [List.mem_filterMap] at hp
  obtain ⟨e, he, hpe⟩ := hp
  obtain ⟨het, hel⟩ := hbounds e he
  have hval := uploadProgressValue_some e p hpe
  obtain ⟨hf0, hf1⟩ := uploadFraction_bounds e.loaded e.total (by omega) (by omega)
  rw [hval]
  constructor <;> linarith

theorem uploadProgressValues_pairwise (progress : List ProgressEvent) (total : Nat)
    (hbounds : ∀ e ∈ progress, e.total = total ∧ e.loaded ≤ total)
    (hmono : progress.Pairwise (fun e later => e.loaded ≤ later.loaded)) :
    (progress.filterMap uploadProgressValue).Pairwise (· ≤ ·) := by
  rw [List.pairwise_filterMap]
  refine List.Pairwise.imp_of_mem ?_ hmono
  intro e later he hlater hle p hp q hq
  rw [uploadProgressValue_some e p hp, uploadProgressValue_some later q hq,
    (hbounds e he).1, (hbounds later hlater).1]
  have hm := uploadFraction_mono e.loaded later.loaded total hle
  linarith

theorem pollingProgressValues_pairwise (k : Nat) :
    ((List.range' 1 k).map pollingProgressValue).Pairwise (· ≤ ·) := by
  rw [List.pairwise_map]
  exact (List.pairwise_le_range' 1 k).imp (fun h => pollingProgressValue_mono _ _ h)

theorem pollingProgressValues_bounds (k : Nat) (hk : k ≤ 60) :
    ∀ p ∈ (List.range' 1 k).map pollingProgressValue, 60 ≤ p ∧ p ≤ 90 := by
  intro p hp
  rw [List.mem_map] at hp
  obtain ⟨i, hi, rfl⟩ := hp
  rw [List.mem_range'_1] at hi
  have h0 : (0 : ℚ) ≤ (i : ℚ) := by exact_mod_cast Nat.zero_le i
  have h1 : (i : ℚ) ≤ 60 := by exact_mod_cast (show i ≤ 60 by omega)
  unfold pollingProgressValue
  constructor <;> linarith

/-- The percents of the five phases in sequence are non-decreasing. -/
theorem phases_pairwise (upload polling : List ℚ)
    (hu : upload.Pairwise (· ≤ ·)) (hub : ∀ p ∈ upload, 20 ≤ p ∧ p ≤ 60)
    (hp : polling.Pairwise (· ≤ ·)) (hpb : ∀ p ∈ polling, 60 ≤ p ∧ p ≤ 90) :
    (10 :: 20 :: (upload ++ 60 :: (polling ++ [90, 100]))).Pairwise (· ≤ ·) := by
  have h1 : ([90, 100] : List ℚ).Pairwise (· ≤ ·) := by
    simp only [List.pairwise_cons, List.mem_singleton, List.not_mem_nil, forall_eq,
      List.Pairwise.nil, and_true, false_implies, implies_true]
    norm_num
  have h2 : (polling ++ [90, 100]).Pairwise (· ≤ ·) := by
    rw [List.pairwise_append]
    refine ⟨hp, h1, ?_⟩
    intro a ha b hb
    have hab := (hpb a ha).2
    simp only [List.mem_cons, List.mem_singleton, List.not_mem_nil, or_false] at hb
    rcases hb with rfl | rfl <;> linarith
  have h2b : ∀ b ∈ polling ++ [90, 100], (60 : ℚ) ≤ b := by
    intro b hb
    rw [List.mem_append] at hb
    rcases hb with hb | hb
    · exact (hpb b hb).1
    · simp only [List.mem_cons, List.mem_singleton, List.not_mem_nil, or_false] at hb
      rcases hb with rfl | rfl <;> norm_num
  have h3 : (60 :: (polling ++ [90, 100])).Pairwise (· ≤ ·) :=
    List.pairwise_cons.mpr ⟨h2b, h2⟩
  have h3b : ∀ b ∈ 60 :: (polling ++ [90, 100]), (60 : ℚ) ≤ b := by
    intro b hb
    rcases List.mem_cons.mp hb with rfl | hb
    · exact le_refl _
    · exact h2b b hb
  have h4 : (upload ++ 60 :: (polling ++ [90, 100])).Pairwise (· ≤ ·) := by
    rw [List.pairwise_append]
    refine ⟨hu, h3, ?_⟩
    intro a ha b hb
    exact le_trans (hub a ha).2 (h3b b hb)
  have h4b : ∀ b ∈ upload ++ 60 :: (polling ++ [90, 100]), (20 : ℚ) ≤ b := by
    intro b hb
    rw [List.mem_append] at hb
    rcases hb with hb | hb
    · exact (hub b hb).1
    · have := h3b b hb
      linarith
  refine List.pairwise_cons.mpr ⟨?_, List.pairwise_cons.mpr ⟨h4b, h4⟩⟩
  intro b hb
  rcases List.mem_cons.mp hb with rfl | hb
  · norm_num
  · have := h4b b hb
    linarith

theorem getLast?_phases (upload polling : List ℚ) :
    (10 :: 20 :: (upload ++ 60 :: (polling ++ [90, 100]))).getLast? = some 100 := by
  have h : 10 :: 20 :: (upload ++ 60 :: (polling ++ [90, 100]))
      = (10 :: 20 :: (upload ++ 60 :: (polling ++ [90]))) ++ [100] := by
    simp
  rw [h, List.getLast?_append]
  rfl

/-- Monotone progress of a completed run under any budget of at most 60 attempts. -/
theorem processFile_completed_monotone (eng : Engine) (cfg : Config) (world : World)
    (state : AppState) (file : File) (result : Json) (total : Nat)
    (hcfg : cfg.POLLING.MAX_ATTEMPTS ≤ 60)
    (hrun : (processFile eng cfg world state file).outcome = Outcome.completed result)
    (htotal : 0 < total)
    (hbounds : ∀ e ∈ world.uploadProgress, e.total = total ∧ e.loaded ≤ total)
    (hmono : world.uploadProgress.Pairwise (fun e later => e.loaded ≤ later.loaded)) :
    (progressValues (processFile eng cfg world state file).events).Pairwise (· ≤ ·) ∧
    (progressValues (processFile eng cfg world state file).events).head? = some 10 ∧
    (progressValues (processFile eng cfg world state file).events).getLast? = some 100 := by
  obtain ⟨k, _, hk, hvals⟩ := processFile_completed_progress eng cfg world state file result hrun
  rw [hvals]
  refine ⟨?_, rfl, getLast?_phases _ _⟩
  exact phases_pairwise _ _
    (uploadProgressValues_pairwise world.uploadProgress total hbounds hmono)
    (uploadProgressValues_bounds world.uploadProgress total htotal hbounds)
    (pollingProgressValues_pairwise k)
    (pollingProgressValues_bounds k (by omega))

/-- C6: in every completed run of `processFile` under the shipped
configuration, with upload progress events that share a positive `total`,
stay within it and have non-decreasing `loaded`, the percents passed to
`updateProgress` are non-decreasing, the first is at most 10 (it is 10) and
the last is exactly 100. -/
theorem processFile_progress_monotone (eng : Engine) (world : World) (state : AppState)
    (file : File) (result : Json) (total : Nat)
    (hrun : (processFile eng CONFIG world state file).outcome = Outcome.completed result)
    (htotal : 0 < total)
    (hbounds : ∀ e ∈ world.uploadProgress, e.total = total ∧ e.loaded ≤ total)
    (hmono : world.uploadProgress.Pairwise (fun e later => e.loaded ≤ later.loaded)) :
    (progressValues (processFile eng CONFIG world state file).events).Pairwise (· ≤ ·) ∧
    (∃ first, (progressValues (processFile eng CONFIG world state file).events).head?
        = some first ∧ first ≤ 10) ∧
    (progressValues (processFile eng CONFIG world state file).events).getLast? = some 100 := by
  obtain ⟨h1, h2, h3⟩ := processFile_completed_monotone eng CONFIG world state file result total
    (by decide) hrun htotal hbounds hmono
  exact ⟨h1, ⟨10, h2, le_refl _⟩, h3⟩


theorem validateFile_samplePdf : validateFile refEngine CONFIG samplePdf = .ok true := by
  rfl

theorem waitForProcessing_sampleWorld (fileId : Option String) :
    waitForProcessing CONFIG fileId sampleWorld.statusResponse sampleWorld.statusDelay
      = ⟨(List.range' 1 3).flatMap (queryingTick fileId) ++ [Event.clearInterval], 3, .ok ()⟩ := by
  apply waitForProcessing_of_first_success CONFIG fileId sampleWorld.statusResponse
    sampleWorld.statusDelay 3 (fun _ => rfl) (by decide) (by decide) (by decide)
  intro i hi1 hi3
  have hi : i = 1 ∨ i = 2 := by omega
  rcases hi with rfl | rfl <;> decide

/-- The sample run completes with the result of the endpoint. -/
theorem processFile_sampleWorld_completed :
    (processFile refEngine CONFIG sampleWorld AppState.initial samplePdf).outcome
      = Outcome.completed
          (.obj [("summary", .str "Informe trimestral"), ("metadata", .obj [])]) := by
  simp only [processFile, validateFile_samplePdf, waitForProcessing_sampleWorld]
  simp [getPresignedUrl, uploadToS3, getResult, sampleWorld, Response.ok, Json.getProp,
    List.lookup]

/-- C6, on the sample run: the percents are non-decreasing, the first is 10
and the last is 100. -/
theorem processFile_progress_monotone_witness :
    (progressValues
        (processFile refEngine CONFIG sampleWorld AppState.initial samplePdf).events).Pairwise
      (· ≤ ·) ∧
    (∃ first, (progressValues
        (processFile refEngine CONFIG sampleWorld AppState.initial samplePdf).events).head?
        = some first ∧ first ≤ 10) ∧
    (progressValues
        (processFile refEngine CONFIG sampleWorld AppState.initial samplePdf).events).getLast?
      = some 100 :=
  processFile_progress_monotone refEngine sampleWorld AppState.initial samplePdf _ 5242880
    processFile_sampleWorld_completed (by decide)
    (by
      intro e he
      simp only [sampleWorld, List.mem_cons, List.mem_singleton, List.not_mem_nil,
        or_false] at he
      rcases he with rfl | rfl | rfl <;> decide)
    (by simp [sampleWorld])


/-! ## Authorization (`getPresignedUrl`): properties -/

theorem getPresignedUrl_failure (eng : Engine) (state : AppState) (file : File)
    (response : Response) (hnot : response.ok = false) :
    (getPresignedUrl eng state file (.ok response)).2 =
      match response.jsonOrEmpty.getProp eng "message" with
      | .error m => .error m
      | .ok message => .error (errorMessageOr eng message uploadUrlDefaultReason) := by
  simp [getPresignedUrl, hnot]

theorem getPresignedUrl_success (eng : Engine) (state : AppState) (file : File)
    (response : Response) (hok : response.ok = true) :
    (getPresignedUrl eng state file (.ok response)).2 =
      match response.json with
      | .error m => .error m
      | .ok data => data.getProp eng "uploadUrl" := by
  simp [getPresignedUrl, hok]

/-- C9 (as amended): `getPresignedUrl` fails when the request itself fails, for
every non-success response, and for every success response whose body is not
parseable JSON or is `null`; for a success response whose body is a JSON
object without an `uploadUrl` field it does not fail but returns `undefined`
to the caller, and `processFile` goes on to call `uploadToS3` with it. -/
theorem getPresignedUrl_unusable_handle (eng : Engine) (cfg : Config) (world : World)
    (state : AppState) (file : File) (response : Response)
    (hvalid : validateFile eng cfg file = .ok true)
    (hworld : world.uploadUrlResponse = .ok response) :
    (response.ok = false →
      ∃ reason, (getPresignedUrl eng state file (.ok response)).2 = .error reason) ∧
    (∀ m, response.ok = true → response.json = .error m →
      (getPresignedUrl eng state file (.ok response)).2 = .error m) ∧
    (response.ok = true → response.json = .ok .null →
      ∃ reason, (getPresignedUrl eng state file (.ok response)).2 = .error reason) ∧
    (∀ props, response.ok = true → response.json = .ok (.obj props) →
      props.lookup "uploadUrl" = none →
      (getPresignedUrl eng state file (.ok response)).2 = .ok none ∧
      Event.uploadToS3 none file.type ∈ (processFile eng cfg world state file).events) := by
  refine ⟨?_, ?_, ?_, ?_⟩
  · intro hnot
    rw [getPresignedUrl_failure eng state file response hnot]
    split
    · exact ⟨_, rfl⟩
    · exact ⟨_, rfl⟩
  · intro m hok hjson
    rw [getPresignedUrl_success eng state file response hok, hjson]
  · intro hok hjson
    rw [getPresignedUrl_success eng state file response hok, hjson]
    exact ⟨_, rfl⟩
  · intro props hok hjson hlookup
    have hres : ∀ s, (getPresignedUrl eng s file (.ok response)).2 = .ok none := by
      intro s
      rw [getPresignedUrl_success eng s file response hok, hjson]
      simp [Json.getProp, hlookup]
    refine ⟨hres state, ?_⟩
    unfold processFile
    simp only [hvalid, hworld, hres]
    split
    · simp [catchError, uploadToS3]
    · split
      · simp [catchError, uploadToS3]
      · split
        · simp [catchError, uploadToS3]
        · simp [uploadToS3]


/-- C9, on a 200 answer whose body is a JSON object without properties: no
failure, `undefined` is returned and handed to `uploadToS3`. -/
theorem getPresignedUrl_unusable_handle_witness :
    (getPresignedUrl refEngine AppState.initial samplePdf (.ok ⟨200, .ok (.obj [])⟩)).2
      = .ok none ∧
    Event.uploadToS3 none samplePdf.type
      ∈ (processFile refEngine CONFIG noHandleWorld AppState.initial samplePdf).events :=
  (getPresignedUrl_unusable_handle refEngine CONFIG noHandleWorld AppState.initial samplePdf
    ⟨200, .ok (.obj [])⟩ validateFile_samplePdf rfl).2.2.2 [] rfl rfl rfl

/-- C9 as stated fails: a 200 answer whose JSON body is an object without
properties, so without `uploadUrl`, does not make `getPresignedUrl` fail; it
returns `undefined`. -/
theorem getPresignedUrl_no_handle_counterexample :
    Response.ok ⟨200, .ok (.obj [])⟩ = true ∧
    (Json.obj []).getProp refEngine "uploadUrl" = .ok none ∧
    (getPresignedUrl refEngine AppState.initial samplePdf noHandleWorld.uploadUrlResponse).2
      = .ok none ∧
    ¬ ∃ reason,
      (getPresignedUrl refEngine AppState.initial samplePdf noHandleWorld.uploadUrlResponse).2
        = .error reason := by
  have h : (getPresignedUrl refEngine AppState.initial samplePdf
      noHandleWorld.uploadUrlResponse).2 = .ok none := rfl
  refine ⟨rfl, rfl, h, ?_⟩
  rintro ⟨reason, hr⟩
  rw [h] at hr
  cases hr

theorem processFile_authorization_error (eng : Engine) (cfg : Config) (world : World)
    (state : AppState) (file : File) (reason : String)
    (hvalid : validateFile eng cfg file = .ok true)
    (hfail : ∀ s, (getPresignedUrl eng s file world.uploadUrlResponse).2 = .error reason)
    (hne : reason ≠ "") :
    (processFile eng cfg world state file).outcome = Outcome.failed reason ∧
    (processFile eng cfg world state file).events.getLast? = some (Event.showError reason) := by
  unfold processFile
  simp only [hvalid, hfail, catchError, if_neg hne]
  refine ⟨trivial, ?_⟩
  rw [List.getLast?_append]
  rfl

theorem uploadUrlDefaultReason_ne_empty : uploadUrlDefaultReason ≠ "" := by
  decide

/-- C10 (as amended): for a non-2xx answer of the upload-url endpoint,
`getPresignedUrl` fails with the body's `message` when that field is a
non-empty string, and with the default reason when the body is not parseable
JSON, is a JSON object without `message`, or has an empty `message`;
`processFile` then shows exactly that reason as the failure message. -/
theorem getPresignedUrl_reason (eng : Engine) (cfg : Config) (world : World)
    (state : AppState) (file : File) (response : Response)
    (hvalid : validateFile eng cfg file = .ok true)
    (hworld : world.uploadUrlResponse = .ok response)
    (hnot : response.ok = false) :
    (∀ props m, response.json = .ok (.obj props) →
      props.lookup "message" = some (.str m) → m ≠ "" →
      (getPresignedUrl eng state file (.ok response)).2 = .error m ∧
      (processFile eng cfg world state file).outcome = Outcome.failed m ∧
      (processFile eng cfg world state file).events.getLast? = some (Event.showError m)) ∧
    ((∃ e, response.json = .error e) ∨
      (∃ props, response.json = .ok (.obj props) ∧
        (props.lookup "message" = none ∨ props.lookup "message" = some (.str ""))) →
      (getPresignedUrl eng state file (.ok response)).2 = .error uploadUrlDefaultReason ∧
      (processFile eng cfg world state file).outcome = Outcome.failed uploadUrlDefaultReason ∧
      (processFile eng cfg world state file).events.getLast?
        = some (Event.showError uploadUrlDefaultReason)) := by
  refine ⟨?_, ?_⟩
  · intro props m hjson hlookup hne
    have hres : ∀ s, (getPresignedUrl eng s file world.uploadUrlResponse).2 = .error m := by
      intro s
      rw [hworld, getPresignedUrl_failure eng s file response hnot]
      simp [Response.jsonOrEmpty, hjson, Json.getProp, hlookup, errorMessageOr, toBoolean,
        hne, Json.toJsString]
    have hrun := processFile_authorization_error eng cfg world state file m hvalid hres hne
    rw [hworld] at hres
    exact ⟨hres state, hrun⟩
  · intro hbody
    have hres : ∀ s, (getPresignedUrl eng s file world.uploadUrlResponse).2
        = .error uploadUrlDefaultReason := by
      intro s
      rw [hworld, getPresignedUrl_failure eng s file response hnot]
      rcases hbody with ⟨e, hjson⟩ | ⟨props, hjson, hnone | hempty⟩
      · simp [Response.jsonOrEmpty, hjson, Json.getProp, errorMessageOr]
      · simp [Response.jsonOrEmpty, hjson, Json.getProp, hnone, errorMessageOr]
      · simp [Response.jsonOrEmpty, hjson, Json.getProp, hempty, errorMessageOr, toBoolean]
    have hrun := processFile_authorization_error eng cfg world state file
      uploadUrlDefaultReason hvalid hres uploadUrlDefaultReason_ne_empty
    rw [hworld] at hres
    exact ⟨hres state, hrun⟩

/-- C10, on a 500 answer with `message: "Internal server error"`: that
message is the reason and is what `processFile` shows. -/
theorem getPresignedUrl_reason_witness :
    (getPresignedUrl refEngine AppState.initial samplePdf
        (.ok ⟨500, .ok (.obj [("message", .str "Internal server error")])⟩)).2
      = .error "Internal server error" ∧
    (processFile refEngine CONFIG serverErrorWorld AppState.initial samplePdf).outcome
      = Outcome.failed "Internal server error" ∧
    (processFile refEngine CONFIG serverErrorWorld AppState.initial samplePdf).events.getLast?
      = some (Event.showError "Internal server error") :=
  (getPresignedUrl_reason refEngine CONFIG serverErrorWorld AppState.initial samplePdf
    ⟨500, .ok (.obj [("message", .str "Internal server error")])⟩
    validateFile_samplePdf rfl rfl).1 _ "Internal server error" rfl rfl (by decide)

/-- C10 as stated fails: on a 500 answer whose body has the `message` field
present and empty, the reason is the default text, not the field. -/
theorem getPresignedUrl_empty_message_counterexample :
    Response.ok ⟨500, .ok (.obj [("message", .str "")])⟩ = false ∧
    (Json.obj [("message", .str "")]).getProp refEngine "message" = .ok (some (.str "")) ∧
    (getPresignedUrl refEngine AppState.initial samplePdf emptyMessageWorld.uploadUrlResponse).2
      = .error "Error al obtener URL de upload" ∧
    (processFile refEngine CONFIG emptyMessageWorld AppState.initial samplePdf).outcome
      = Outcome.failed "Error al obtener URL de upload" ∧
    "Error al obtener URL de upload" ≠ "" := by
  have hres : ∀ s, (getPresignedUrl refEngine s samplePdf emptyMessageWorld.uploadUrlResponse).2
      = .error uploadUrlDefaultReason := fun _ => rfl
  exact ⟨rfl, rfl, rfl,
    (processFile_authorization_error refEngine CONFIG emptyMessageWorld AppState.initial
      samplePdf uploadUrlDefaultReason validateFile_samplePdf hres
      uploadUrlDefaultReason_ne_empty).1,
    by decide⟩


/-! ## Transfer (`uploadToS3`): properties -/

/-- C11 (as amended): for every completion status of the PUT transfer,
`uploadToS3` succeeds if and only if the status is exactly 200, and fails with
the transfer-error reason for every other completion status, the other
statuses of the range 200..299 included. -/
theorem uploadToS3_succeeds_iff (presignedUrl : JsValue) (file : File)
    (progress : List ProgressEvent) (status : Nat) :
    ((uploadToS3 presignedUrl file progress (.load status)).2 = .ok () ↔ status = 200) ∧
    (status ≠ 200 →
      (uploadToS3 presignedUrl file progress (.load status)).2 = .error transferErrorReason) := by
  by_cases h : status = 200
  · simp [uploadToS3, h]
  · simp [uploadToS3, h, transferErrorReason]

/-- C11 as stated fails: a transfer that completes with 204, a status of the
range 200..299, makes `uploadToS3` fail with the transfer-error reason. -/
theorem uploadToS3_204_counterexample :
    (200 ≤ 204 ∧ 204 ≤ 299) ∧
    (uploadToS3 (some (.str "https://bucket.s3.amazonaws.com/key")) samplePdf []
        (.load 204)).2 = .error "Error al subir archivo a S3" ∧
    (uploadToS3 (some (.str "https://bucket.s3.amazonaws.com/key")) samplePdf []
        (.load 204)).2 ≠ .ok () := by
  refine ⟨⟨by decide, by decide⟩, rfl, ?_⟩
  intro h
  cases h


/-- C11, at the status 200: the transfer succeeds. -/
theorem uploadToS3_succeeds_iff_witness :
    (uploadToS3 (some (.str "https://bucket.s3.amazonaws.com/key")) samplePdf []
        (.load 200)).2 = .ok () :=
  (uploadToS3_succeeds_iff (some (.str "https://bucket.s3.amazonaws.com/key")) samplePdf []
    200).1.mpr rfl

/-! ## Retry: properties -/

/-- What a run does and how it ends do not depend on the session state it
starts from: the file identifier is generated anew and polling counts from 0. -/
theorem processFile_independent_of_state (eng : Engine) (cfg : Config) (world : World)
    (s1 s2 : AppState) (file : File) :
    (processFile eng cfg world s1 file).events = (processFile eng cfg world s2 file).events ∧
    (processFile eng cfg world s1 file).outcome
      = (processFile eng cfg world s2 file).outcome := by
  unfold processFile
  cases validateFile eng cfg file with
  | error m => exact ⟨rfl, rfl⟩
  | ok b =>
    simp only [getPresignedUrl, getResult]
    split
    · exact ⟨rfl, rfl⟩
    · split
      · exact ⟨rfl, rfl⟩
      · split
        · exact ⟨rfl, rfl⟩
        · split
          · exact ⟨rfl, rfl⟩
          · exact ⟨rfl, rfl⟩


/-- Once the file has passed validation, the run holds it in the session and
addresses the server with the newly generated identifier, however it ends. -/
theorem processFile_state_of_valid (eng : Engine) (cfg : Config) (world : World)
    (state : AppState) (file : File) (hvalid : validateFile eng cfg file = .ok true) :
    (processFile eng cfg world state file).state.currentFile = some file ∧
    (processFile eng cfg world state file).state.fileId = some world.generatedFileId := by
  unfold processFile
  simp only [hvalid]
  split
  · exact ⟨rfl, rfl⟩
  · split
    · exact ⟨rfl, rfl⟩
    · split
      · exact ⟨rfl, rfl⟩
      · split
        · exact ⟨rfl, rfl⟩
        · exact ⟨rfl, rfl⟩

/-- A run that passed validation opens with the progress section, the first
progress report and the authorization request under the new identifier. -/
theorem processFile_events_of_valid (eng : Engine) (cfg : Config) (world : World)
    (state : AppState) (file : File) (hvalid : validateFile eng cfg file = .ok true) :
    ∃ rest, (processFile eng cfg world state file).events =
      [Event.showSection "progress", Event.resetSteps,
        Event.updateProgress 10 "Solicitando autorización",
        Event.getPresignedUrl (some world.generatedFileId) file.name file.type] ++ rest := by
  unfold processFile
  simp only [hvalid, getPresignedUrl]
  split
  · exact ⟨_, by simp [catchError]; rfl⟩
  · split
    · exact ⟨_, by simp [catchError]; rfl⟩
    · split
      · exact ⟨_, by simp [catchError]; rfl⟩
      · split
        · exact ⟨_, by simp [catchError]; rfl⟩
        · exact ⟨_, by simp; rfl⟩

/-- When the run reaches the polling phase, the counter it leaves in the
session is the one of a timer started at 0. -/
theorem processFile_pollingAttempts (eng : Engine) (cfg : Config) (world : World)
    (state : AppState) (file : File) (uploadUrl : JsValue)
    (hvalid : validateFile eng cfg file = .ok true)
    (hauth : ∀ s, (getPresignedUrl eng s file world.uploadUrlResponse).2 = .ok uploadUrl)
    (htransfer : (uploadToS3 uploadUrl file world.uploadProgress world.uploadEnd).2 = .ok ()) :
    (processFile eng cfg world state file).state.pollingAttempts
      = (pollLoop cfg (some world.generatedFileId) world.statusResponse world.statusDelay
          0).pollingAttempts := by
  unfold processFile
  simp only [hvalid, hauth, htransfer, waitForProcessing]
  split
  · rfl
  · split
    · rfl
    · rfl


/-- C12: when `processFile(f)` fails after `f` has passed validation, the
session still holds `f`, so the retry click runs `processFile(f)` on that same
file; the retry does and ends exactly as a run from the initial session would
(it opens with the progress section, the 10 percent report and a new
authorization request, never with a later phase), its file identifier is the
newly generated one, and when it reaches polling the attempt counter is that
of a timer started at 0. -/
theorem retry_replays_whole_flow (eng : Engine) (cfg : Config) (world retryWorld : World)
    (state : AppState) (file : File) (reason : String)
    (hvalid : validateFile eng cfg file = .ok true)
    (_hfail : (processFile eng cfg world state file).outcome = Outcome.failed reason) :
    (processFile eng cfg world state file).state.currentFile = some file ∧
    retryClick eng cfg retryWorld (processFile eng cfg world state file).state
      = some (processFile eng cfg retryWorld (processFile eng cfg world state file).state file) ∧
    (processFile eng cfg retryWorld (processFile eng cfg world state file).state file).events
      = (processFile eng cfg retryWorld AppState.initial file).events ∧
    (processFile eng cfg retryWorld (processFile eng cfg world state file).state file).outcome
      = (processFile eng cfg retryWorld AppState.initial file).outcome ∧
    (∃ rest,
      (processFile eng cfg retryWorld (processFile eng cfg world state file).state file).events
        = [Event.showSection "progress", Event.resetSteps,
            Event.updateProgress 10 "Solicitando autorización",
            Event.getPresignedUrl (some retryWorld.generatedFileId) file.name file.type]
          ++ rest) ∧
    (processFile eng cfg retryWorld
        (processFile eng cfg world state file).state file).state.fileId
      = some retryWorld.generatedFileId ∧
    (∀ uploadUrl,
      (∀ s, (getPresignedUrl eng s file retryWorld.uploadUrlResponse).2 = .ok uploadUrl) →
      (uploadToS3 uploadUrl file retryWorld.uploadProgress retryWorld.uploadEnd).2 = .ok () →
      (processFile eng cfg retryWorld
          (processFile eng cfg world state file).state file).state.pollingAttempts
        = (pollLoop cfg (some retryWorld.generatedFileId)
            retryWorld.statusResponse retryWorld.statusDelay 0).pollingAttempts) := by
  have hheld := (processFile_state_of_valid eng cfg world state file hvalid).1
  refine ⟨hheld, ?_, ?_, ?_, ?_, ?_, ?_⟩
  · simp [retryClick, hheld]
  · exact (processFile_independent_of_state eng cfg retryWorld _ _ file).1
  · exact (processFile_independent_of_state eng cfg retryWorld _ _ file).2
  · exact processFile_events_of_valid eng cfg retryWorld _ file hvalid
  · exact (processFile_state_of_valid eng cfg retryWorld _ file hvalid).2
  · intro uploadUrl hauth htransfer
    exact processFile_pollingAttempts eng cfg retryWorld _ file uploadUrl hvalid hauth htransfer

theorem processFile_serverErrorWorld_failed :
    (processFile refEngine CONFIG serverErrorWorld AppState.initial samplePdf).outcome
      = Outcome.failed "Internal server error" :=
  (processFile_authorization_error refEngine CONFIG serverErrorWorld AppState.initial samplePdf
    "Internal server error" validateFile_samplePdf (fun _ => rfl) (by decide)).1

/-- C12, on a run that fails with HTTP 500 at authorization and is retried
against the sample world: the session holds the PDF, the retry runs as from
the initial session and completes. -/
theorem retry_replays_whole_flow_witness :
    (processFile refEngine CONFIG serverErrorWorld AppState.initial samplePdf).state.currentFile
      = some samplePdf ∧
    (processFile refEngine CONFIG sampleWorld
        (processFile refEngine CONFIG serverErrorWorld AppState.initial samplePdf).state
        samplePdf).events
      = (processFile refEngine CONFIG sampleWorld AppState.initial samplePdf).events ∧
    (processFile refEngine CONFIG sampleWorld
        (processFile refEngine CONFIG serverErrorWorld AppState.initial samplePdf).state
        samplePdf).state.fileId
      = some "0b9d6c1e-5a3f-4c7d-9e21-7f4a1c2b3d4e" :=
  ⟨(retry_replays_whole_flow refEngine CONFIG serverErrorWorld sampleWorld AppState.initial
      samplePdf "Internal server error" validateFile_samplePdf
      processFile_serverErrorWorld_failed).1,
    (retry_replays_whole_flow refEngine CONFIG serverErrorWorld sampleWorld AppState.initial
      samplePdf "Internal server error" validateFile_samplePdf
      processFile_serverErrorWorld_failed).2.2.1,
    (retry_replays_whole_flow refEngine CONFIG serverErrorWorld sampleWorld AppState.initial
      samplePdf "Internal server error" validateFile_samplePdf
      processFile_serverErrorWorld_failed).2.2.2.2.2.1⟩


/-! ## Reset during polling: properties -/

theorem Page.timerFires_of_scheduled (cfg : Config)
    (statusResponse : Nat → Except String Response) (page : Page)
    (h : page.pollInterval = true) :
    page.timerFires cfg statusResponse =
      ({ state := { page.state with
            pollingAttempts :=
              (pollTick cfg page.state.fileId statusResponse
                page.state.pollingAttempts).pollingAttempts },
         pollInterval :=
          (pollTick cfg page.state.fileId statusResponse
            page.state.pollingAttempts).settled.isNone },
        (pollTick cfg page.state.fileId statusResponse page.state.pollingAttempts).events) := by
  simp [Page.timerFires, h]

theorem mem_events_pollTick (cfg : Config) (fileId : Option String)
    (statusResponse : Nat → Except String Response) (attempts : Nat)
    (h : attempts + 1 ≤ cfg.POLLING.MAX_ATTEMPTS) :
    Event.checkProcessingStatus fileId
      ∈ (pollTick cfg fileId statusResponse attempts).events := by
  cases hs : isSuccessStatus (statusResponse (attempts + 1)) with
  | true =>
    rw [pollTick_ready cfg fileId statusResponse attempts h hs]
    simp [queryingTick]
  | false =>
    rw [pollTick_continue cfg fileId statusResponse attempts h hs]
    simp [queryingTick]

/-- The start of a run, as a step of the page, is the opening of `processFile`. -/
theorem Page.processFileStarts_events (eng : Engine) (cfg : Config) (world : World)
    (file : File) (page : Page) (hvalid : validateFile eng cfg file = .ok true) :
    ∃ rest, (processFile eng cfg world page.state file).events
      = (page.processFileStarts eng cfg world file).2 ++ rest := by
  obtain ⟨rest, hrest⟩ := processFile_events_of_valid eng cfg world page.state file hvalid
  refine ⟨rest, ?_⟩
  rw [hrest]
  simp [Page.processFileStarts, hvalid]

/-- C13 (as amended): neither `resetApplication` nor the start of a new
`processFile` clears the interval of a polling phase in flight. After a reset
the interval is still scheduled, with `pollingAttempts` at 0 and `fileId`
empty; its next tick still reports progress (60.5) and, when `MAX_ATTEMPTS` is
at least 1, still issues a status query, for the empty identifier. Only the
callback of the interval clears it: a tick leaves the interval cleared exactly
when it finds the budget used up or its query is answered with a success
status. -/
theorem reset_leaves_polling_scheduled (eng : Engine) (cfg : Config) (world : World)
    (file : File) (statusResponse : Nat → Except String Response) (page : Page)
    (hlive : page.pollInterval = true) :
    page.resetClicked.1.pollInterval = true ∧
    (page.processFileStarts eng cfg world file).1.pollInterval = true ∧
    page.resetClicked.1.state.pollingAttempts = 0 ∧
    page.resetClicked.1.state.fileId = none ∧
    progressValues (page.resetClicked.1.timerFires cfg statusResponse).2
      = [pollingProgressValue 1] ∧
    (1 ≤ cfg.POLLING.MAX_ATTEMPTS →
      Event.checkProcessingStatus none
        ∈ (page.resetClicked.1.timerFires cfg statusResponse).2) ∧
    ((page.timerFires cfg statusResponse).1.pollInterval = false ↔
      (cfg.POLLING.MAX_ATTEMPTS < page.state.pollingAttempts + 1 ∨
        isSuccessStatus (statusResponse (page.state.pollingAttempts + 1)) = true)) := by
  have hreset : page.resetClicked.1.pollInterval = true := hlive
  refine ⟨hreset, ?_, rfl, rfl, ?_, ?_, ?_⟩
  · unfold Page.processFileStarts
    split
    · exact hlive
    · exact hlive
  · rw [Page.timerFires_of_scheduled cfg statusResponse _ hreset]
    exact progressValues_pollTick cfg _ statusResponse _
  · intro hmax
    rw [Page.timerFires_of_scheduled cfg statusResponse _ hreset]
    exact mem_events_pollTick cfg none statusResponse 0 hmax
  · rw [Page.timerFires_of_scheduled cfg statusResponse page hlive]
    by_cases hmax : cfg.POLLING.MAX_ATTEMPTS < page.state.pollingAttempts + 1
    · rw [pollTick_timeout cfg _ statusResponse _ hmax]
      simp [hmax]
    · cases hs : isSuccessStatus (statusResponse (page.state.pollingAttempts + 1)) with
      | true =>
        rw [pollTick_ready cfg _ statusResponse _ (by omega) hs]
        simp
      | false =>
        rw [pollTick_continue cfg _ statusResponse _ (by omega) hs]
        simp [hmax]

/-- C13, on the sample run reset after its second tick, under the shipped
configuration. -/
theorem reset_leaves_polling_scheduled_witness :
    pollingPage.resetClicked.1.pollInterval = true ∧
    (pollingPage.processFileStarts refEngine CONFIG sampleWorld samplePdf).1.pollInterval
      = true ∧
    pollingPage.resetClicked.1.state.pollingAttempts = 0 ∧
    pollingPage.resetClicked.1.state.fileId = none ∧
    progressValues (pollingPage.resetClicked.1.timerFires CONFIG neverReady).2
      = [pollingProgressValue 1] ∧
    (1 ≤ CONFIG.POLLING.MAX_ATTEMPTS →
      Event.checkProcessingStatus none
        ∈ (pollingPage.resetClicked.1.timerFires CONFIG neverReady).2) := by
  have h := reset_leaves_polling_scheduled refEngine CONFIG sampleWorld samplePdf neverReady
    pollingPage rfl
  exact ⟨h.1, h.2.1, h.2.2.1, h.2.2.2.1, h.2.2.2.2.1, h.2.2.2.2.2.1⟩

/-- C13 as stated fails: the sample run is reset after its second polling
tick; the interval is still scheduled, and its next tick reports progress and
issues a status query. -/
theorem reset_during_polling_counterexample :
    pollingPage.pollInterval = true ∧
    pollingPage.resetClicked.1.pollInterval = true ∧
    (pollingPage.resetClicked.1.timerFires CONFIG neverReady).2
      = [Event.updateProgress (pollingProgressValue 1) "Analizando contenido",
          Event.checkProcessingStatus none] ∧
    statusQueries (pollingPage.resetClicked.1.timerFires CONFIG neverReady).2 = 1 ∧
    (pollingPage.resetClicked.1.timerFires CONFIG neverReady).1.pollInterval = true := by
  have hlive : pollingPage.resetClicked.1.pollInterval = true := rfl
  have htick : pollTick CONFIG none neverReady 0
      = ⟨queryingTick none 1, 1, none⟩ :=
    pollTick_continue CONFIG none neverReady 0 (by decide)
      (isSuccessStatus_of_status_404 _ rfl)
  have hfires : pollingPage.resetClicked.1.timerFires CONFIG neverReady
      = ({ state := { pollingPage.resetClicked.1.state with pollingAttempts := 1 },
           pollInterval := true },
          queryingTick none 1) := by
    rw [Page.timerFires_of_scheduled CONFIG neverReady _ hlive]
    have hstate : pollingPage.resetClicked.1.state.fileId = none := rfl
    have hattempts : pollingPage.resetClicked.1.state.pollingAttempts = 0 := rfl
    rw [hstate, hattempts, htick]
    rfl
  rw [hfires]
  exact ⟨rfl, rfl, rfl, rfl, rfl⟩


/-! ## HTML escaping: properties -/

theorem unescapeFrom_skip (pre rest : List Char) :
    unescapeFrom pre.length (pre ++ rest) = unescapeFrom 0 rest := by
  induction pre with
  | nil => rfl
  | cons p pre ih => simpa [unescapeFrom] using ih

theorem entityAt_of_ne_amp (c : Char) (rest : List Char) (h : c ≠ '&') :
    entityAt (c :: rest) = none := by
  have h2 : ('&' == c) = false := by
    simp [Ne.symm h]
  simp [entityAt, htmlEntities, List.find?, List.isPrefixOf, h2]

theorem unescapeFrom_entity (tail rest : List Char) (ch : Char)
    (h : entityAt ('&' :: (tail ++ rest)) = some ('&' :: tail, ch)) :
    unescapeFrom 0 ('&' :: (tail ++ rest)) = ch :: unescapeFrom 0 rest := by
  rw [unescapeFrom, h]
  simp only [List.length_cons, Nat.add_sub_cancel]
  rw [unescapeFrom_skip]

theorem unescapeFrom_escapeHtmlChars (cs : List Char) :
    unescapeFrom 0 (escapeHtmlChars cs) = cs := by
  induction cs with
  | nil => rfl
  | cons c cs ih =>
    unfold escapeHtmlChars escapeHtmlMap
    split_ifs with h1 h2 h3 h4 h5
    · subst h1
      show unescapeFrom 0 ('&' :: (['a', 'm', 'p', ';'] ++ escapeHtmlChars cs)) = _
      rw [unescapeFrom_entity _ _ '&'
        (by simp [entityAt, htmlEntities, List.find?, List.isPrefixOf]), ih]
    · subst h2
      show unescapeFrom 0 ('&' :: (['l', 't', ';'] ++ escapeHtmlChars cs)) = _
      rw [unescapeFrom_entity _ _ '<'
        (by simp [entityAt, htmlEntities, List.find?, List.isPrefixOf]), ih]
    · subst h3
      show unescapeFrom 0 ('&' :: (['g', 't', ';'] ++ escapeHtmlChars cs)) = _
      rw [unescapeFrom_entity _ _ '>'
        (by simp [entityAt, htmlEntities, List.find?, List.isPrefixOf]), ih]
    · subst h4
      show unescapeFrom 0 ('&' :: (['q', 'u', 'o', 't', ';'] ++ escapeHtmlChars cs)) = _
      rw [unescapeFrom_entity _ _ '"'
        (by simp [entityAt, htmlEntities, List.find?, List.isPrefixOf]), ih]
    · subst h5
      show unescapeFrom 0 ('&' :: (['#', '0', '3', '9', ';'] ++ escapeHtmlChars cs)) = _
      rw [unescapeFrom_entity _ _ '\x27'
        (by simp [entityAt, htmlEntities, List.find?, List.isPrefixOf]), ih]
    · show unescapeFrom 0 (c :: escapeHtmlChars cs) = _
      rw [unescapeFrom, entityAt_of_ne_amp c _ h1, ih]

theorem escapeHtmlChars_clean (cs : List Char) :
    ∀ c ∈ escapeHtmlChars cs, c ≠ '<' ∧ c ≠ '>' ∧ c ≠ '"' ∧ c ≠ '\x27' := by
  induction cs with
  | nil => intro c hc; cases hc
  | cons d cs ih =>
    intro c hc
    unfold escapeHtmlChars escapeHtmlMap at hc
    rw [List.mem_append] at hc
    rcases hc with hc | hc
    · split_ifs at hc with h1 h2 h3 h4 h5
      · have hc2 : c ∈ ['&', 'a', 'm', 'p', ';'] := hc
        simp only [List.mem_cons, List.mem_singleton, List.not_mem_nil, or_false] at hc2
        rcases hc2 with rfl | rfl | rfl | rfl | rfl <;> decide
      · have hc2 : c ∈ ['&', 'l', 't', ';'] := hc
        simp only [List.mem_cons, List.mem_singleton, List.not_mem_nil, or_false] at hc2
        rcases hc2 with rfl | rfl | rfl | rfl <;> decide
      · have hc2 : c ∈ ['&', 'g', 't', ';'] := hc
        simp only [List.mem_cons, List.mem_singleton, List.not_mem_nil, or_false] at hc2
        rcases hc2 with rfl | rfl | rfl | rfl <;> decide
      · have hc2 : c ∈ ['&', 'q', 'u', 'o', 't', ';'] := hc
        simp only [List.mem_cons, List.mem_singleton, List.not_mem_nil, or_false] at hc2
        rcases hc2 with rfl | rfl | rfl | rfl | rfl | rfl <;> decide
      · have hc2 : c ∈ ['&', '#', '0', '3', '9', ';'] := hc
        simp only [List.mem_cons, List.mem_singleton, List.not_mem_nil, or_false] at hc2
        rcases hc2 with rfl | rfl | rfl | rfl | rfl | rfl <;> decide
      · have hc2 : c = d := List.mem_singleton.mp hc
        subst hc2
        exact ⟨h2, h3, h4, h5⟩
    · exact ih c hc

theorem amp_in_block (t rest pre post : List Char) (ht : '&' ∉ t)
    (h : '&' :: (t ++ rest) = pre ++ '&' :: post) :
    (pre = [] ∧ post = t ++ rest) ∨ ∃ pre2, rest = pre2 ++ '&' :: post := by
  cases pre with
  | nil =>
    left
    simp only [List.nil_append, List.cons.injEq, true_and] at h
    exact ⟨rfl, h.symm⟩
  | cons p pre =>
    right
    simp only [List.cons_append, List.cons.injEq] at h
    obtain ⟨_, h⟩ := h
    rcases List.append_eq_append_iff.mp h with ⟨a, _, ha⟩ | ⟨c, hc, hc2⟩
    · exact ⟨a, ha⟩
    · cases c with
      | nil => exact ⟨[], by simpa using hc2.symm⟩
      | cons x c =>
        simp only [List.cons_append, List.cons.injEq] at hc2
        exfalso
        apply ht
        rw [hc, ← hc2.1]
        simp

theorem escapeHtmlChars_amp (cs pre post : List Char)
    (h : escapeHtmlChars cs = pre ++ '&' :: post) :
    ∃ entry ∈ htmlEntities, entry.1 <+: '&' :: post := by
  induction cs generalizing pre with
  | nil =>
    exfalso
    have hlen := congrArg List.length h
    simp [escapeHtmlChars] at hlen
    omega
  | cons c cs ih =>
    unfold escapeHtmlChars escapeHtmlMap at h
    split_ifs at h with h1 h2 h3 h4 h5
    · rcases amp_in_block ['a', 'm', 'p', ';'] _ pre post (by decide) h with ⟨_, hp⟩ | ⟨p, hp⟩
      · exact ⟨(['&', 'a', 'm', 'p', ';'], '&'), by simp [htmlEntities],
          ⟨escapeHtmlChars cs, by rw [hp]; rfl⟩⟩
      · exact ih p hp
    · rcases amp_in_block ['l', 't', ';'] _ pre post (by decide) h with ⟨_, hp⟩ | ⟨p, hp⟩
      · exact ⟨(['&', 'l', 't', ';'], '<'), by simp [htmlEntities],
          ⟨escapeHtmlChars cs, by rw [hp]; rfl⟩⟩
      · exact ih p hp
    · rcases amp_in_block ['g', 't', ';'] _ pre post (by decide) h with ⟨_, hp⟩ | ⟨p, hp⟩
      · exact ⟨(['&', 'g', 't', ';'], '>'), by simp [htmlEntities],
          ⟨escapeHtmlChars cs, by rw [hp]; rfl⟩⟩
      · exact ih p hp
    · rcases amp_in_block ['q', 'u', 'o', 't', ';'] _ pre post (by decide) h
        with ⟨_, hp⟩ | ⟨p, hp⟩
      · exact ⟨(['&', 'q', 'u', 'o', 't', ';'], '"'), by simp [htmlEntities],
          ⟨escapeHtmlChars cs, by rw [hp]; rfl⟩⟩
      · exact ih p hp
    · rcases amp_in_block ['#', '0', '3', '9', ';'] _ pre post (by decide) h
        with ⟨_, hp⟩ | ⟨p, hp⟩
      · exact ⟨(['&', '#', '0', '3', '9', ';'], '\x27'), by simp [htmlEntities],
          ⟨escapeHtmlChars cs, by rw [hp]; rfl⟩⟩
      · exact ih p hp
    · cases pre with
      | nil =>
        simp only [List.nil_append] at h
        have hc : c = '&' := by
          have := congrArg List.head? h
          simpa using this
        exact absurd hc h1
      | cons p pre =>
        have ht : escapeHtmlChars cs = pre ++ '&' :: post := by
          have := congrArg List.tail h
          simpa using this
        exact ih pre ht

theorem escapeHtmlChars_of_plain (cs : List Char)
    (h : ∀ c ∈ cs, c ≠ '&' ∧ c ≠ '<' ∧ c ≠ '>' ∧ c ≠ '"' ∧ c ≠ '\x27') :
    escapeHtmlChars cs = cs := by
  induction cs with
  | nil => rfl
  | cons c cs ih =>
    obtain ⟨h1, h2, h3, h4, h5⟩ := h c (List.mem_cons_self _ _)
    have ih2 := ih (fun d hd => h d (List.mem_cons_of_mem _ hd))
    simp [escapeHtmlChars, escapeHtmlMap, h1, h2, h3, h4, h5, ih2]

theorem htmlEntities_text :
    htmlEntities.map (fun entry => String.mk entry.1)
      = ["&amp;", "&lt;", "&gt;", "&quot;", "&#039;"] := by
  decide

/-- C14: for every string `s`, `escapeHtml(s)` contains none of `<`, `>`, the
double quote and the single quote; every `&` in it is the first character of
one of the five entities; replacing each entity by its character gives back
`s`; hence `escapeHtml` is injective, and it leaves a string without the five
special characters unchanged. -/
theorem escapeHtml_faithful (s : String) :
    (∀ c ∈ (escapeHtml s).data, c ≠ '<' ∧ c ≠ '>' ∧ c ≠ '"' ∧ c ≠ '\x27') ∧
    (∀ pre post, (escapeHtml s).data = pre ++ '&' :: post →
      ∃ entry ∈ htmlEntities, entry.1 <+: '&' :: post) ∧
    unescapeHtml (escapeHtml s) = s ∧
    (∀ t, escapeHtml s = escapeHtml t → s = t) ∧
    ((∀ c ∈ s.data, c ≠ '&' ∧ c ≠ '<' ∧ c ≠ '>' ∧ c ≠ '"' ∧ c ≠ '\x27') →
      escapeHtml s = s) := by
  have hround : ∀ t : String, unescapeHtml (escapeHtml t) = t := by
    intro t
    simp [unescapeHtml, escapeHtml, unescapeFrom_escapeHtmlChars]
  refine ⟨escapeHtmlChars_clean s.data, ?_, hround s, ?_, ?_⟩
  · intro pre post h
    exact escapeHtmlChars_amp s.data pre post h
  · intro t h
    rw [← hround s, ← hround t, h]
  · intro h
    simp [escapeHtml, escapeHtmlChars_of_plain s.data h]

/-- C14, on a metadata text with all five special characters. -/
theorem escapeHtml_faithful_witness :
    escapeHtml "<a href=\"x\">Tom & Jerry\x27s</a>"
      = "&lt;a href=&quot;x&quot;&gt;Tom &amp; Jerry&#039;s&lt;/a&gt;" ∧
    unescapeHtml (escapeHtml "<a href=\"x\">Tom & Jerry\x27s</a>")
      = "<a href=\"x\">Tom & Jerry\x27s</a>" :=
  ⟨by decide, (escapeHtml_faithful "<a href=\"x\">Tom & Jerry\x27s</a>").2.2.1⟩

end AwsAnalizer
